import Mathlib

/-!
Verification of the context-pruning gateway of the
`opencode-dynamic-context-pruning` repository, against its design document.

The development shallowly embeds the TypeScript sources:

* the JSON data model (`Json`) stands for values produced by `JSON.parse`;
* the global fetch interception gateway (`index.ts`, the `globalThis.fetch`
  wrapper) becomes `globalFetchBody`;
* the wire-format descriptors (`lib/fetch-wrapper/formats/*`) become the
  `anthropicDetect` / `bedrockDetect` / `openaiResponsesDetect` functions and
  `anthropicReplaceToolOutput`;
* the explicit prune action (`lib/strategies/prune-tool.ts`) becomes
  `pruneExecute`, with `buildToolIdList` / `getPruneToolIds` from
  `lib/messages/utils.ts`;
* the prunable-list builder (`lib/fetch-wrapper/prunable-list.ts`) becomes
  `buildPrunableToolsList`;
* components whose implementation files are not part of the source snapshot
  (the numeric-ID store, the two background pruning strategies, token
  estimation, result formatting) are modelled from the design document; each
  such definition carries a doc comment starting with `Modelled from the
  spec:`.

JavaScript semantics that matter here are modelled explicitly: property
access on `null` throws, strict equality against a string literal only
matches a string value, `toLowerCase` on a non-string throws, optional
chaining turns `null`/missing into `undefined`, and a thrown exception
inside the gateway's `try` block makes the request fall through unmodified.
Fallible computations are embedded as `Except Unit`.
-/

/-- JSON values, as produced by `JSON.parse` (numbers restricted to
integers, which is all the embedded requests use). -/
inductive Json where
  | null
  | bool (b : Bool)
  | num (n : Int)
  | str (s : String)
  | arr (elems : List Json)
  | obj (fields : List (String × Json))
deriving Repr

mutual

/-- Boolean structural equality on `Json`. -/
def jsonEqb : Json → Json → Bool
  | .null, .null => true
  | .bool a, .bool b => a == b
  | .num a, .num b => a == b
  | .str a, .str b => a == b
  | .arr xs, .arr ys => jsonListEqb xs ys
  | .obj fs, .obj gs => jsonFieldsEqb fs gs
  | _, _ => false

/-- Pointwise `jsonEqb` on element lists. -/
def jsonListEqb : List Json → List Json → Bool
  | [], [] => true
  | x :: xs, y :: ys => jsonEqb x y && jsonListEqb xs ys
  | _, _ => false

/-- Pointwise `jsonEqb` on field lists. -/
def jsonFieldsEqb : List (String × Json) → List (String × Json) → Bool
  | [], [] => true
  | (k, v) :: fs, (k', v') :: gs => k == k' && jsonEqb v v' && jsonFieldsEqb fs gs
  | _, _ => false

end

mutual

theorem jsonEqb_iff : ∀ a b : Json, jsonEqb a b = true ↔ a = b
  | .null, b => by cases b <;> simp [jsonEqb]
  | .bool a, b => by cases b <;> simp [jsonEqb]
  | .num a, b => by cases b <;> simp [jsonEqb]
  | .str a, b => by cases b <;> simp [jsonEqb]
  | .arr xs, b => by
      cases b <;> simp [jsonEqb]
      exact jsonListEqb_iff xs _
  | .obj fs, b => by
      cases b <;> simp [jsonEqb]
      exact jsonFieldsEqb_iff fs _

theorem jsonListEqb_iff : ∀ xs ys : List Json, jsonListEqb xs ys = true ↔ xs = ys
  | [], ys => by cases ys <;> simp [jsonListEqb]
  | x :: xs, ys => by
      cases ys with
      | nil => simp [jsonListEqb]
      | cons y ys =>
        simp only [jsonListEqb, Bool.and_eq_true, List.cons.injEq]
        rw [jsonEqb_iff x y, jsonListEqb_iff xs ys]

theorem jsonFieldsEqb_iff :
    ∀ fs gs : List (String × Json), jsonFieldsEqb fs gs = true ↔ fs = gs
  | [], gs => by cases gs <;> simp [jsonFieldsEqb]
  | (k, v) :: fs, gs => by
      cases gs with
      | nil => simp [jsonFieldsEqb]
      | cons g gs =>
        obtain ⟨k', v'⟩ := g
        simp only [jsonFieldsEqb, Bool.and_eq_true, List.cons.injEq, Prod.mk.injEq,
          beq_iff_eq]
        rw [jsonEqb_iff v v', jsonFieldsEqb_iff fs gs]

end

instance : DecidableEq Json := fun a b => decidable_of_iff _ (jsonEqb_iff a b)

/-- First-match field lookup in a JSON object, i.e. JavaScript property
access on an object built by `JSON.parse` (whose keys are unique). -/
def lookupField : List (String × Json) → String → Option Json
  | [], _ => none
  | (k, v) :: rest, key => if k = key then some v else lookupField rest key

/-- The JavaScript object spread `\x7b...m, key: v\x7d`: overwrite `key` in
place if present, otherwise append it. -/
def spreadSet : List (String × Json) → String → Json → List (String × Json)
  | [], key, v => [(key, v)]
  | (k, w) :: rest, key, v =>
      if k = key then (k, v) :: rest else (k, w) :: spreadSet rest key v

/-- `String.prototype.toLowerCase`, character by character (kernel-reducible,
unlike `String.toLower`). -/
def jsToLower (s : String) : String := String.mk (s.data.map Char.toLower)

/-- The fixed redaction marker the gateway writes over pruned tool results
(`index.ts` line 634). -/
def PRUNED_MARKER : String :=
  "[Output removed to save context - information superseded or no longer needed]"

/-- Minimal `JSON.stringify` string escaping. -/
def escapeChar (c : Char) : String :=
  if c = '"' then "\\\"" else if c = '\\' then "\\\\" else String.mk [c]

/-- Escape every character of a string for `JSON.stringify`. -/
def escapeString (s : String) : String := String.join (s.data.map escapeChar)

mutual

/-- `JSON.stringify`, preserving field order. -/
def Json.render : Json → String
  | .null => "null"
  | .bool true => "true"
  | .bool false => "false"
  | .num n => toString n
  | .str s => "\"" ++ escapeString s ++ "\""
  | .arr xs => "[" ++ renderElems xs ++ "]"
  | .obj fs => "\x7b" ++ renderFields fs ++ "\x7d"

/-- Render array elements, comma separated. -/
def renderElems : List Json → String
  | [] => ""
  | [x] => Json.render x
  | x :: y :: xs => Json.render x ++ "," ++ renderElems (y :: xs)

/-- Render object fields, comma separated. -/
def renderFields : List (String × Json) → String
  | [] => ""
  | [(k, v)] => "\"" ++ escapeString k ++ "\":" ++ Json.render v
  | (k, v) :: g :: fs =>
      "\"" ++ escapeString k ++ "\":" ++ Json.render v ++ "," ++ renderFields (g :: fs)

end

/-! ## The interception gateway (`index.ts`, `globalThis.fetch` wrapper)

`cacheToolParameters` (lines 546-575) runs first inside the gateway's `try`
block; its only effect on the forwarded body is that an exception it raises
(property access on a `null` message or a `null` entry of an assistant
message's `tool_calls` array) aborts processing, falling through to the
original request. -/

/-- Does the `cacheToolParameters` scan throw on this message?
(`message.role` throws iff the message is `null`; for an assistant message
with a `tool_calls` array, `toolCall.id` throws iff the entry is `null`.) -/
def messageCacheThrows (m : Json) : Bool :=
  match m with
  | .null => true
  | .obj fs =>
      match lookupField fs "role" with
      | some (.str r) =>
          if r = "assistant" then
            match lookupField fs "tool_calls" with
            | some (.arr tcs) =>
                tcs.any fun tc => match tc with | .null => true | _ => false
            | _ => false
          else false
      | _ => false
  | _ => false

/-- Does the tool-parameter caching pass over the message list throw? -/
def cacheScanThrows (msgs : List Json) : Bool := msgs.any messageCacheThrows

/-- `m.role === 'tool'` (`index.ts` line 598). -/
def isToolRole (m : Json) : Bool :=
  match m with
  | .obj fs =>
      match lookupField fs "role" with
      | some (.str r) => r = "tool"
      | _ => false
  | _ => false

/-- One step of the gateway's redaction map (`index.ts` lines 628-638):
`m.role === 'tool' && allPrunedIds.has(m.tool_call_id?.toLowerCase())`
replaces the message's `content` with the fixed marker.  Only the outgoing
identifier is lowercased; the pruned set is consulted as stored.  A
non-string, non-null `tool_call_id` makes `toLowerCase` throw. -/
def redactOne (pruned : List String) (m : Json) : Except Unit (Json × Bool) :=
  match m with
  | .null => .error ()
  | .obj fs =>
      match lookupField fs "role" with
      | some (.str r) =>
          if r = "tool" then
            match lookupField fs "tool_call_id" with
            | none => .ok (m, false)
            | some .null => .ok (m, false)
            | some (.str s) =>
                if pruned.contains (jsToLower s) then
                  .ok (.obj (spreadSet fs "content" (.str PRUNED_MARKER)), true)
                else .ok (m, false)
            | some _ => .error ()
          else .ok (m, false)
      | _ => .ok (m, false)
  | _ => .ok (m, false)

/-- The gateway's `body.messages.map(...)` redaction pass together with its
`replacedCount` counter. -/
def redactMessages (pruned : List String) : List Json → Except Unit (List Json × Nat)
  | [] => .ok ([], 0)
  | m :: rest =>
      match redactOne pruned m with
      | .error e => .error e
      | .ok (m', b) =>
          match redactMessages pruned rest with
          | .error e => .error e
          | .ok (rest', c) => .ok (m' :: rest', (if b then 1 else 0) + c)

/-- The gateway's in-`try` processing of a recognized message list: the
caching scan, the `toolMessages.length > 0` and `allPrunedIds.size > 0`
gates, then the redaction map (`index.ts` lines 590-638). -/
def interceptMessages (pruned : List String) (msgs : List Json) :
    Except Unit (List Json × Nat) :=
  if cacheScanThrows msgs then .error ()
  else if msgs.countP isToolRole > 0 && !pruned.isEmpty then
    redactMessages pruned msgs
  else .ok (msgs, 0)

/-- `body.messages && Array.isArray(body.messages)` (`index.ts` line 584);
`none` when the body is not recognized as a chat request. -/
def bodyMessages : Json → Option (List Json)
  | .obj fs =>
      match lookupField fs "messages" with
      | some (.arr ms) => some ms
      | _ => none
  | _ => none

/-- `body.messages = ...` on the parsed body. -/
def setBodyMessages (body : Json) (msgs : List Json) : Json :=
  match body with
  | .obj fs => .obj (spreadSet fs "messages" (.arr msgs))
  | b => b

/-- The body the `globalThis.fetch` wrapper forwards (`index.ts` lines
580-725).  `parsed` is the result of `JSON.parse(init.body)` (`none` on a
parse error); `orig` is the original body string; `pruned` is the union of
pruned call identifiers across non-child sessions.  The wrapper reassigns
`init.body` only when at least one replacement occurred; every failure path
falls through to the original string. -/
def globalFetchBody (parsed : Option Json) (orig : String) (pruned : List String) :
    String :=
  match parsed with
  | none => orig
  | some body =>
      match bodyMessages body with
      | none => orig
      | some msgs =>
          match interceptMessages pruned msgs with
          | .error _ => orig
          | .ok (msgs', c) =>
              if c > 0 then Json.render (setBodyMessages body msgs') else orig

/-! ## Format descriptors (`lib/fetch-wrapper/formats/*`, `lib/fetch-wrapper/types.ts`)

Each descriptor's `detect(body)` sniffs the shape of a parsed request body.
The embeddings below are read directly off the three sources. -/

/-- Does object field `key` hold an array (`Array.isArray(body.key)`)? -/
def isArrField (fs : List (String × Json)) (key : String) : Bool :=
  match lookupField fs key with
  | some (.arr _) => true
  | _ => false

/-- `anthropicFormat.detect` (`formats/anthropic.ts` lines 12-17):
`body.system !== undefined && Array.isArray(body.messages)`. -/
def anthropicDetect (body : Json) : Bool :=
  match body with
  | .obj fs => (lookupField fs "system").isSome && isArrField fs "messages"
  | _ => false

/-- `bedrockFormat.detect` (`formats/bedrock.ts` lines 12-18):
`Array.isArray(body.system) && body.inferenceConfig !== undefined &&
Array.isArray(body.messages)`. -/
def bedrockDetect (body : Json) : Bool :=
  match body with
  | .obj fs =>
      isArrField fs "system" && (lookupField fs "inferenceConfig").isSome &&
        isArrField fs "messages"
  | _ => false

/-- `openaiResponsesFormat.detect` (`formats/openai-responses.ts` lines 7-9):
`body.input && Array.isArray(body.input)`.  An array is always truthy in
JavaScript, so this is exactly the array check. -/
def openaiResponsesDetect (body : Json) : Bool :=
  match body with
  | .obj fs => isArrField fs "input"
  | _ => false

/-- One block of `anthropicFormat.replaceToolOutput` (`formats/anthropic.ts`
lines 72-81): a `tool_result` block whose lowercased `tool_use_id` equals the
lowercased target id gets its `content` overwritten.  `toLowerCase` on a
non-string, non-null id throws; property access on a `null` block throws. -/
def anthropicReplaceBlock (toolIdLower msg : String) (block : Json) :
    Except Unit (Json × Bool) :=
  match block with
  | .null => .error ()
  | .obj fs =>
      match lookupField fs "type" with
      | some (.str t) =>
          if t = "tool_result" then
            match lookupField fs "tool_use_id" with
            | none => .ok (block, false)
            | some .null => .ok (block, false)
            | some (.str s) =>
                if jsToLower s = toolIdLower then
                  .ok (.obj (spreadSet fs "content" (.str msg)), true)
                else .ok (block, false)
            | some _ => .error ()
          else .ok (block, false)
      | _ => .ok (block, false)
  | _ => .ok (block, false)

/-- `m.content.map(block => ...)` with the `messageModified` flag. -/
def anthropicReplaceBlocks (toolIdLower msg : String) :
    List Json → Except Unit (List Json × Bool)
  | [] => .ok ([], false)
  | b :: bs =>
      match anthropicReplaceBlock toolIdLower msg b with
      | .error e => .error e
      | .ok (b', bb) =>
          match anthropicReplaceBlocks toolIdLower msg bs with
          | .error e => .error e
          | .ok (bs', cb) => .ok (b' :: bs', bb || cb)

/-- One message of `anthropicFormat.replaceToolOutput` (lines 67-87): only a
user-role message with an array `content` is rewritten, and only when one of
its blocks matched. -/
def anthropicReplaceMsg (toolIdLower msg : String) (m : Json) :
    Except Unit (Json × Bool) :=
  match m with
  | .null => .error ()
  | .obj fs =>
      match lookupField fs "role" with
      | some (.str r) =>
          if r = "user" then
            match lookupField fs "content" with
            | some (.arr blocks) =>
                match anthropicReplaceBlocks toolIdLower msg blocks with
                | .error e => .error e
                | .ok (blocks', modified) =>
                    if modified then
                      .ok (.obj (spreadSet fs "content" (.arr blocks')), true)
                    else .ok (m, false)
            | _ => .ok (m, false)
          else .ok (m, false)
      | _ => .ok (m, false)
  | _ => .ok (m, false)

/-- The message loop of `anthropicFormat.replaceToolOutput`. -/
def anthropicReplaceMsgs (toolIdLower msg : String) :
    List Json → Except Unit (List Json × Bool)
  | [] => .ok ([], false)
  | m :: ms =>
      match anthropicReplaceMsg toolIdLower msg m with
      | .error e => .error e
      | .ok (m', b) =>
          match anthropicReplaceMsgs toolIdLower msg ms with
          | .error e => .error e
          | .ok (ms', bs) => .ok (m' :: ms', b || bs)

/-- `anthropicFormat.replaceToolOutput(data, toolId, prunedMessage)`
(`formats/anthropic.ts` lines 63-90), as a pure transformation returning the
rewritten message list and the `replaced` flag. -/
def anthropicReplaceToolOutput (data : List Json) (toolId msg : String) :
    Except Unit (List Json × Bool) :=
  anthropicReplaceMsgs (jsToLower toolId) msg data

/-! ## The explicit prune action (`lib/strategies/prune-tool.ts`,
`lib/messages/utils.ts`) -/

/-- Cached tool metadata for a call identifier (`ToolParameterEntry`). -/
structure ToolMeta where
  tool : String
  parameters : Json
deriving Repr, DecidableEq

/-- First-match lookup in the tool-parameter cache. -/
def lookupMeta : List (String × ToolMeta) → String → Option ToolMeta
  | [], _ => none
  | (k, v) :: rest, key => if k = key then some v else lookupMeta rest key

/-- A message part as consumed by `buildToolIdList` (`part.type`,
`part.callID`, `part.tool`, plus the part's recorded output text). -/
structure MsgPart where
  ptype : String
  callID : String
  tool : String
  output : String
deriving Repr, DecidableEq

/-- A session message with its parts (`WithParts`). -/
structure HistoryMsg where
  role : String
  parts : List MsgPart
deriving Repr, DecidableEq

/-- `part.type === 'tool' && part.callID && part.tool` (truthiness of the two
strings), yielding the call identifier (`utils.ts` line 97). -/
def partToolId (part : MsgPart) : Option String :=
  if part.ptype = "tool" && part.callID != "" && part.tool != "" then
    some part.callID
  else none

/-- `buildToolIdList` (`lib/messages/utils.ts` lines 92-104): the call
identifiers of all tool parts, in message order. -/
def buildToolIdList : List HistoryMsg → List String
  | [] => []
  | msg :: rest => msg.parts.filterMap partToolId ++ buildToolIdList rest

/-- `getPruneToolIds` (`lib/messages/utils.ts` lines 106-124): each numeric
ID in range indexes into `toolIdList`; an ID whose cached metadata names a
protected tool is skipped; everything out of range is skipped silently.
(The source's `isNaN` guard is vacuous here: `parseInt` results that were
`NaN` are filtered out by the caller, and `Int` has no `NaN`.) -/
def getPruneToolIds : List Int → List String → List (String × ToolMeta) →
    List String → List String
  | [], _, _, _ => []
  | index :: rest, toolIdList, toolParameters, protectedTools =>
      let tailIds := getPruneToolIds rest toolIdList toolParameters protectedTools
      if 0 ≤ index ∧ index < (toolIdList.length : Int) then
        match toolIdList[index.toNat]? with
        | some id =>
            match lookupMeta toolParameters id with
            | some metadata =>
                if protectedTools.contains metadata.tool then tailIds
                else id :: tailIds
            | none => id :: tailIds
        | none => tailIds
      else tailIds

/-- Is a character one of the whitespace characters `parseInt` skips? -/
def isWhitespaceChar (c : Char) : Bool :=
  c = ' ' || c = '\t' || c = '\n' || c = '\r'

/-- JavaScript `parseInt(s, 10)`: skip leading whitespace, read an optional
sign, then the longest digit prefix; `NaN` (here `none`) when no digit
follows. -/
def parseIntJS (s : String) : Option Int :=
  let cs := s.data.dropWhile isWhitespaceChar
  let signAndRest : Bool × List Char :=
    match cs with
    | '-' :: rest => (true, rest)
    | '+' :: rest => (false, rest)
    | rest => (false, rest)
  let digits := signAndRest.2.takeWhile Char.isDigit
  if digits.isEmpty then none
  else
    let v : Nat := digits.foldl (fun acc c => acc * 10 + (c.toNat - 48)) 0
    some (if signAndRest.1 then -(v : Int) else (v : Int))

/-- The session state touched by the prune action: the pruned-ID list
(`state.prune.toolIds`), the token counters (`state.stats`), the nudge
counter, the tool-parameter cache, and — held alongside to express that the
action never touches it — the session's numeric-ID map. -/
structure SessionState where
  pruneToolIds : List String
  pruneTokenCounter : Nat
  totalPruneTokens : Nat
  nudgeCounter : Nat
  toolParameters : List (String × ToolMeta)
  numericIdMap : List (String × Nat)
deriving Repr, DecidableEq

/-- Rejection for an empty ID list (`prune-tool.ts` line 45). -/
def NO_IDS_MESSAGE : String :=
  "No IDs provided. Check the <prunable-tools> list for available IDs to prune."

/-- Rejection for an unknown reason tag (`prune-tool.ts` line 53). -/
def NO_REASON_MESSAGE : String :=
  "No valid pruning reason found. Use \x27completion\x27, \x27noise\x27, or \x27consolidation\x27 as the first element."

/-- Rejection when nothing after the reason parses as a number
(`prune-tool.ts` line 60). -/
def NO_NUMERIC_MESSAGE : String :=
  "No numeric IDs provided. Format: [reason, id1, id2, ...] where reason is \x27completion\x27, \x27noise\x27, or \x27consolidation\x27."

/-- Modelled from the spec: `calculateTokensSaved` (`lib/utils.ts` is not in
the source snapshot).  The design document treats the token-estimation
heuristic as a configurable constant (§9, roughly characters over four);
applied to the outputs of the pruned tool parts. -/
def calculateTokensSaved (messages : List HistoryMsg) (ids : List String) : Nat :=
  messages.foldl
    (fun acc msg =>
      acc + msg.parts.foldl
        (fun a part => if ids.contains part.callID then a + part.output.length / 4 else a)
        0)
    0

/-- Modelled from the spec: `formatPruningResultForTool`
(`lib/ui/display-utils.ts` is not in the source snapshot).  §6: a
human-readable confirmation naming what was pruned. -/
def pruneSuccessMessage (pruneToolIds : List String) : String :=
  "Pruned " ++ toString pruneToolIds.length ++ " tool outputs: " ++
    String.intercalate ", " pruneToolIds

/-- The `execute` body of the prune tool (`prune-tool.ts` lines 40-117) as a
state transformer: validation first (three early returns, before any
mutation), then resolution through `getPruneToolIds`, the push onto
`state.prune.toolIds`, and the token-counter update. -/
def pruneExecute (protectedTools : List String) (st : SessionState)
    (messages : List HistoryMsg) (ids : List String) : String × SessionState :=
  if ids.isEmpty then (NO_IDS_MESSAGE, st)
  else
    let reason := ids.headD ""
    if !(["completion", "noise", "consolidation"].contains reason) then
      (NO_REASON_MESSAGE, st)
    else
      let numericToolIds : List Int := (ids.drop 1).filterMap parseIntJS
      if numericToolIds.isEmpty then (NO_NUMERIC_MESSAGE, st)
      else
        let toolIdList := buildToolIdList messages
        let pruneToolIds :=
          getPruneToolIds numericToolIds toolIdList st.toolParameters protectedTools
        let counter := st.pruneTokenCounter + calculateTokensSaved messages pruneToolIds
        (pruneSuccessMessage pruneToolIds,
          { st with
            pruneToolIds := st.pruneToolIds ++ pruneToolIds,
            pruneTokenCounter := 0,
            totalPruneTokens := st.totalPruneTokens + counter,
            nudgeCounter := 0 })

/-! ## Prunable-list builder (`lib/fetch-wrapper/prunable-list.ts`) and the
parameter-summary helper (`lib/ui/display-utils.ts`, `extractParameterKey`) -/

/-- JavaScript truthiness of a JSON value. -/
def jsTruthy : Json → Bool
  | .null => false
  | .bool b => b
  | .num n => n != 0
  | .str s => s != ""
  | .arr _ => true
  | .obj _ => true

/-- Property access `p.key` on an arbitrary JSON value: only objects have
fields, everything else yields `undefined` (`none`). -/
def jsGet (p : Json) (key : String) : Option Json :=
  match p with
  | .obj fs => lookupField fs key
  | _ => none

/-- `String(v)` as used by template literals in the summary builder. -/
def jsDisplay : Json → String
  | .null => "null"
  | .bool true => "true"
  | .bool false => "false"
  | .num n => toString n
  | .str s => s
  | .arr _ => ""
  | .obj _ => "[object Object]"

/-- `p.key` followed by a truthiness guard (`parameters.key && ...`). -/
def truthyField (p : Json) (key : String) : Option Json :=
  match jsGet p key with
  | some v => if jsTruthy v then some v else none
  | none => none

/-- `s.substring(0, n)`. -/
def strTake (s : String) (n : Nat) : String := String.mk (s.data.take n)

/-- The ` in ${parameters.path}` suffix for glob/grep summaries. -/
def pathSuffix (p : Json) : String :=
  match truthyField p "path" with
  | some pv => " in " ++ jsDisplay pv
  | none => ""

/-- The tool-specific branches of `extractParameterKey`
(`lib/ui/display-utils.ts` / `lib/messages/utils.ts` lines 6-66); `none`
falls through to the truncated JSON fallback. -/
def extractParameterKeyCore (tool : String) (p : Json) : Option String :=
  if tool = "read" then (truthyField p "filePath").map jsDisplay
  else if tool = "write" then (truthyField p "filePath").map jsDisplay
  else if tool = "edit" then (truthyField p "filePath").map jsDisplay
  else if tool = "list" then
    some (match truthyField p "path" with
          | some v => jsDisplay v
          | none => "(current directory)")
  else if tool = "glob" then
    some (match truthyField p "pattern" with
          | some v => "\"" ++ jsDisplay v ++ "\"" ++ pathSuffix p
          | none => "(unknown pattern)")
  else if tool = "grep" then
    some (match truthyField p "pattern" with
          | some v => "\"" ++ jsDisplay v ++ "\"" ++ pathSuffix p
          | none => "(unknown pattern)")
  else if tool = "bash" then
    match truthyField p "description" with
    | some v => some (jsDisplay v)
    | none =>
        match truthyField p "command" with
        | some v =>
            let c := jsDisplay v
            some (if c.length > 50 then strTake c 50 ++ "..." else c)
        | none => none
  else if tool = "webfetch" then (truthyField p "url").map jsDisplay
  else if tool = "websearch" then
    (truthyField p "query").map (fun v => "\"" ++ jsDisplay v ++ "\"")
  else if tool = "codesearch" then
    (truthyField p "query").map (fun v => "\"" ++ jsDisplay v ++ "\"")
  else if tool = "todowrite" then
    some (toString
      (match jsGet p "todos" with
       | some (.arr ts) => ts.length
       | some (.str s) => s.length
       | _ => 0) ++ " todos")
  else if tool = "todoread" then some "read todo list"
  else if tool = "task" then (truthyField p "description").map jsDisplay
  else none

/-- `extractParameterKey(tool, parameters)` (`lib/messages/utils.ts` lines
6-72): the tool-specific summary, else `JSON.stringify(parameters)` with the
empty-object/array/null cases rendered empty and the rest truncated to 50
characters. -/
def extractParameterKey (tool : String) (parameters : Json) : String :=
  if !jsTruthy parameters then ""
  else
    match extractParameterKeyCore tool parameters with
    | some s => s
    | none =>
        let paramStr := Json.render parameters
        if paramStr = "\x7b\x7d" || paramStr = "[]" || paramStr = "null" then ""
        else strTake paramStr 50

/-- Modelled from the spec: the per-session numeric-ID store
(`lib/state/id-mapping.ts` is not in the source snapshot).  §4.3: assignment
is monotonic per session from a fixed base and append-only; an identifier's
alias never changes or is reused. -/
structure IdMapState where
  nextNumericId : Nat
  numericIdMap : List (String × Nat)
deriving Repr, DecidableEq

/-- A fresh session's numeric-ID store. -/
def initialIdMapState : IdMapState := ⟨1, []⟩

/-- First-match lookup of a call identifier's numeric alias. -/
def lookupNumericId : List (String × Nat) → String → Option Nat
  | [], _ => none
  | (k, n) :: rest, key => if k = key then some n else lookupNumericId rest key

/-- Modelled from the spec: `getOrCreateNumericId(sessionId, callId)`
(§4.3) — return the existing alias, or assign the next integer and advance
the counter. -/
def getOrCreateNumericId (s : IdMapState) (callId : String) : Nat × IdMapState :=
  match lookupNumericId s.numericIdMap callId with
  | some n => (n, s)
  | none =>
      (s.nextNumericId,
        ⟨s.nextNumericId + 1, (callId, s.nextNumericId) :: s.numericIdMap⟩)

/-- Run `getOrCreateNumericId` over a sequence of requests, keeping only the
state. -/
def applyIds (s : IdMapState) : List String → IdMapState
  | [] => s
  | id :: rest => applyIds (getOrCreateNumericId s id).2 rest

/-- The loop of `buildPrunableToolsList` (`prunable-list.ts` lines 23-34):
skip identifiers without metadata, skip protected tools, otherwise assign or
reuse the numeric ID and render `numericId: tool, paramKey`.  The numeric-ID
store is threaded explicitly. -/
def buildPrunableLines (ims : IdMapState) :
    List String → List (String × ToolMeta) → List String →
    List String × List Nat × IdMapState
  | [], _, _ => ([], [], ims)
  | actualId :: rest, toolMetadata, protectedTools =>
      match lookupMeta toolMetadata actualId with
      | none => buildPrunableLines ims rest toolMetadata protectedTools
      | some metadata =>
          if protectedTools.contains metadata.tool then
            buildPrunableLines ims rest toolMetadata protectedTools
          else
            let assigned := getOrCreateNumericId ims actualId
            let paramKey := extractParameterKey metadata.tool metadata.parameters
            let description :=
              if paramKey ≠ "" then metadata.tool ++ ", " ++ paramKey
              else metadata.tool
            let tailRes := buildPrunableLines assigned.2 rest toolMetadata protectedTools
            ((toString assigned.1 ++ ": " ++ description) :: tailRes.1,
              assigned.1 :: tailRes.2.1, tailRes.2.2)

/-- The result of `buildPrunableToolsList`. -/
structure PrunableListResult where
  list : String
  numericIds : List Nat
deriving Repr, DecidableEq

/-- `buildPrunableToolsList` (`lib/fetch-wrapper/prunable-list.ts` lines
14-44): the numbered `<prunable-tools>` listing, or an empty listing when no
line was produced. -/
def buildPrunableToolsList (ims : IdMapState) (unprunedToolCallIds : List String)
    (toolMetadata : List (String × ToolMeta)) (protectedTools : List String) :
    PrunableListResult × IdMapState :=
  let res := buildPrunableLines ims unprunedToolCallIds toolMetadata protectedTools
  if res.1.isEmpty then ({ list := "", numericIds := [] }, res.2.2)
  else
    ({ list := "<prunable-tools>\n" ++ String.intercalate "\n" res.1 ++
          "\n</prunable-tools>",
        numericIds := res.2.1 },
      res.2.2)

/-! ## The background pruning strategies (§4.4)

The strategy implementations (`lib/strategies/deduplication.ts`,
`lib/strategies/supersede-writes.ts`) are not in the source snapshot — only
their call sites in `cli/analyze.ts` are — so they are modelled from the
design document. -/

/-- A tool invocation as the strategies see it: call identifier, tool name,
and the invocation's parameters. -/
structure ToolCall where
  callId : String
  tool : String
  params : Json
deriving Repr, DecidableEq

/-- Character codes of a string, the kernel-reducible sort key. -/
def keyCode (s : String) : List Nat := s.data.map Char.toNat

/-- Strict lexicographic order on character-code lists. -/
def natLexLt : List Nat → List Nat → Bool
  | [], [] => false
  | [], _ :: _ => true
  | _ :: _, [] => false
  | a :: as, b :: bs => a < b || (a == b && natLexLt as bs)

/-- Key order on JSON object fields. -/
def fieldLt (p q : String × Json) : Bool := natLexLt (keyCode p.1) (keyCode q.1)

/-- Insert a field into a key-sorted field list. -/
def insertField (p : String × Json) : List (String × Json) → List (String × Json)
  | [] => [p]
  | q :: qs => if fieldLt q p then q :: insertField p qs else p :: q :: qs

/-- Sort object fields by key (insertion sort). -/
def sortFields : List (String × Json) → List (String × Json)
  | [] => []
  | p :: ps => insertField p (sortFields ps)

mutual

/-- Modelled from the spec: parameter normalization for deduplication
grouping (§4.4) — canonical JSON with object keys recursively sorted, so
that semantically identical parameter objects compare equal regardless of
key order. -/
def normJson : Json → Json
  | .null => .null
  | .bool b => .bool b
  | .num n => .num n
  | .str s => .str s
  | .arr xs => .arr (normList xs)
  | .obj fs => .obj (sortFields (normFields fs))

/-- Normalize every element of an array. -/
def normList : List Json → List Json
  | [] => []
  | x :: xs => normJson x :: normList xs

/-- Normalize every field value of an object. -/
def normFields : List (String × Json) → List (String × Json)
  | [] => []
  | (k, v) :: fs => (k, normJson v) :: normFields fs

end

/-- Modelled from the spec: the deduplication strategy (§4.4).  Entries are
grouped by `(toolName, normalized parameters)`; within a group, every entry
with a chronologically later member is a candidate; protected tools are
excluded.  Returns the marked history indices. -/
def deduplicateMarks (protectedTools : List String) (history : List ToolCall) :
    List Nat :=
  (List.range history.length).filter fun i =>
    match history[i]? with
    | none => false
    | some c =>
        !protectedTools.contains c.tool &&
          (history.drop (i + 1)).any fun c' =>
            c'.tool == c.tool && jsonEqb (normJson c'.params) (normJson c.params)

/-- A write-class invocation (mutates a resource at a path-like parameter;
`write`/`edit`, matching the path conventions of `extractParameterKey`). -/
def isWriteCall (c : ToolCall) : Bool := c.tool == "write" || c.tool == "edit"

/-- A read-class invocation. -/
def isReadCall (c : ToolCall) : Bool := c.tool == "read"

/-- The path-like parameter of an invocation (`parameters.filePath`). -/
def callPath (c : ToolCall) : Option String :=
  match jsGet c.params "filePath" with
  | some (.str s) => some s
  | _ => none

/-- Modelled from the spec: the supersede-writes strategy (§4.4).  A
write-class entry is a candidate exactly when a chronologically later
read-class entry addresses the same path; protected tools are excluded.
Returns the marked history indices. -/
def supersedeMarks (protectedTools : List String) (history : List ToolCall) :
    List Nat :=
  (List.range history.length).filter fun i =>
    match history[i]? with
    | none => false
    | some c =>
        !protectedTools.contains c.tool && isWriteCall c &&
          match callPath c with
          | none => false
          | some p =>
              (history.drop (i + 1)).any fun c' =>
                isReadCall c' && callPath c' == some p

/-! ## Helper lemmas -/

theorem lookupField_spreadSet_self (fs : List (String × Json)) (key : String) (v : Json) :
    lookupField (spreadSet fs key v) key = some v := by
  induction fs with
  | nil => simp [spreadSet, lookupField]
  | cons p rest ih =>
      obtain ⟨k, w⟩ := p
      by_cases hk : k = key
      · simp [spreadSet, hk, lookupField]
      · simp [spreadSet, hk, lookupField, ih]

theorem lookupField_spreadSet_other (fs : List (String × Json)) (key key' : String)
    (v : Json) (h : key' ≠ key) :
    lookupField (spreadSet fs key v) key' = lookupField fs key' := by
  have h' : ¬ key = key' := fun hh => h hh.symm
  induction fs with
  | nil => simp [spreadSet, lookupField, h']
  | cons p rest ih =>
      obtain ⟨k, w⟩ := p
      by_cases hk : k = key
      · subst hk
        simp [spreadSet, lookupField, h']
      · simp [spreadSet, hk, lookupField, ih]

theorem spreadSet_idem (fs : List (String × Json)) (key : String) (v : Json) :
    spreadSet (spreadSet fs key v) key v = spreadSet fs key v := by
  induction fs with
  | nil => simp [spreadSet]
  | cons p rest ih =>
      obtain ⟨k, w⟩ := p
      by_cases hk : k = key
      · simp [spreadSet, hk]
      · simp [spreadSet, hk, ih]

/-! ## C1 — the gateway fails open -/

/-- C1: for every outgoing request whose body no format recognizes (no
`messages` array after parsing, or `JSON.parse` fails), and for every request
whose processing raises an error, the gateway forwards the body unmodified
(byte-identical, hence byte-identical after JSON round-trip); in every case
the request is forwarded — either verbatim or with only redacted messages —
so delivery is never prevented. -/
theorem c1_gateway_fail_open (orig : String) (pruned : List String) (body : Json) :
    globalFetchBody none orig pruned = orig ∧
    (bodyMessages body = none → globalFetchBody (some body) orig pruned = orig) ∧
    (∀ msgs, bodyMessages body = some msgs →
      interceptMessages pruned msgs = .error () →
      globalFetchBody (some body) orig pruned = orig) ∧
    (globalFetchBody (some body) orig pruned = orig ∨
      ∃ msgs msgs' c, bodyMessages body = some msgs ∧
        interceptMessages pruned msgs = Except.ok (msgs', c) ∧ 0 < c ∧
        globalFetchBody (some body) orig pruned =
          Json.render (setBodyMessages body msgs')) := by
  refine ⟨rfl, ?_, ?_, ?_⟩
  · intro h
    simp [globalFetchBody, h]
  · intro msgs h he
    simp [globalFetchBody, h, he]
  · rcases hbm : bodyMessages body with _ | msgs
    · exact Or.inl (by simp [globalFetchBody, hbm])
    · rcases him : interceptMessages pruned msgs with e | ⟨msgs', c⟩
      · exact Or.inl (by simp [globalFetchBody, hbm, him])
      · by_cases hc : 0 < c
        · exact Or.inr ⟨msgs, msgs', c, by simp [hbm], by simp [him], hc,
            by simp [globalFetchBody, hbm, him, hc]⟩
        · have hc0 : c = 0 := by omega
          exact Or.inl (by simp [globalFetchBody, hbm, him, hc0])

/-- Witness for C1: a body that is valid JSON but not a chat request
(`JSON.parse` gives `null`) is forwarded verbatim. -/
theorem c1_witness : globalFetchBody (some Json.null) "THE-ORIGINAL-BODY" [] =
    "THE-ORIGINAL-BODY" :=
  (c1_gateway_fail_open "THE-ORIGINAL-BODY" [] Json.null).2.1 rfl

/-! ## C2 — format detection is not mutually exclusive -/

/-- C2 counterexample: a well-formed Bedrock request body (top-level `system`
array, `inferenceConfig`, `messages` array) is claimed by BOTH the Bedrock
and the Anthropic descriptors, refuting "exactly one descriptor's detect
returns true" and "a body matched by the Bedrock descriptor is not also
matched by the Anthropic descriptor". -/
theorem c2_counterexample :
    bedrockDetect (Json.obj [("system", Json.arr []), ("inferenceConfig", Json.obj []),
        ("messages", Json.arr [])]) = true ∧
    anthropicDetect (Json.obj [("system", Json.arr []), ("inferenceConfig", Json.obj []),
        ("messages", Json.arr [])]) = true := by
  exact ⟨rfl, rfl⟩

/-- C2 amended: detection is not mutually exclusive — every body the Bedrock
descriptor matches is also matched by the Anthropic descriptor (Bedrock's
check strictly strengthens Anthropic's), so which descriptor claims such a
body depends on the order they are tried in. -/
theorem c2_amended (body : Json) (h : bedrockDetect body = true) :
    anthropicDetect body = true := by
  cases body with
  | obj fs =>
      simp only [bedrockDetect, Bool.and_eq_true] at h
      obtain ⟨⟨hsys, _⟩, hmsgs⟩ := h
      have hsome : (lookupField fs "system").isSome = true := by
        unfold isArrField at hsys
        rcases hl : lookupField fs "system" with _ | v
        · rw [hl] at hsys; simp at hsys
        · simp [hl]
      simp [anthropicDetect, hsome, hmsgs]
  | null => simp [bedrockDetect] at h
  | bool b => simp [bedrockDetect] at h
  | num n => simp [bedrockDetect] at h
  | str s => simp [bedrockDetect] at h
  | arr xs => simp [bedrockDetect] at h

/-- Witness for C2's amended theorem at the concrete overlapping body. -/
theorem c2_witness :
    anthropicDetect (Json.obj [("system", Json.arr []), ("inferenceConfig", Json.obj []),
        ("messages", Json.arr [])]) = true :=
  c2_amended _ rfl

/-! ## C8 — invalid prune input: rejection message, no state mutation -/

/-- C8: the explicit prune action, given invalid input — an empty ID list, an
unknown reason tag as the first element, or no parseable numeric IDs after
the reason — returns the corresponding rejection message and leaves the
session state (pruned-ID list, token counters, nudge counter, tool-parameter
cache, numeric-ID map) exactly unchanged. -/
theorem c8_invalid_input_rejected (protectedTools : List String) (st : SessionState)
    (messages : List HistoryMsg) (ids : List String) :
    (ids = [] → pruneExecute protectedTools st messages ids = (NO_IDS_MESSAGE, st)) ∧
    (ids ≠ [] →
      ["completion", "noise", "consolidation"].contains (ids.headD "") = false →
      pruneExecute protectedTools st messages ids = (NO_REASON_MESSAGE, st)) ∧
    (["completion", "noise", "consolidation"].contains (ids.headD "") = true →
      (ids.drop 1).filterMap parseIntJS = [] →
      pruneExecute protectedTools st messages ids = (NO_NUMERIC_MESSAGE, st)) := by
  refine ⟨?_, ?_, ?_⟩
  · intro h
    subst h
    rfl
  · intro hne hreason
    have hempty : ids.isEmpty = false := by
      cases ids with
      | nil => exact absurd rfl hne
      | cons a as => rfl
    have h1 : (ids.isEmpty = true) = False := by simp [hempty]
    simp only [pruneExecute, h1, hreason]
    simp
  · intro hreason hnums
    have hempty : ids.isEmpty = false := by
      cases ids with
      | nil => simp [List.contains] at hreason
      | cons a as => rfl
    have h1 : (ids.isEmpty = true) = False := by simp [hempty]
    simp only [pruneExecute, h1, hreason, hnums]
    simp

/-- Witness for C8: the three rejection paths at concrete inputs, each with
an untouched state. -/
theorem c8_witness :
    pruneExecute [] ⟨["old"], 7, 9, 3, [("x", ⟨"read", Json.null⟩)], [("x", 1)]⟩ [] [] =
      (NO_IDS_MESSAGE, ⟨["old"], 7, 9, 3, [("x", ⟨"read", Json.null⟩)], [("x", 1)]⟩) ∧
    pruneExecute [] ⟨["old"], 7, 9, 3, [("x", ⟨"read", Json.null⟩)], [("x", 1)]⟩ []
        ["bogus", "1"] =
      (NO_REASON_MESSAGE, ⟨["old"], 7, 9, 3, [("x", ⟨"read", Json.null⟩)], [("x", 1)]⟩) ∧
    pruneExecute [] ⟨["old"], 7, 9, 3, [("x", ⟨"read", Json.null⟩)], [("x", 1)]⟩ []
        ["completion", "zzz"] =
      (NO_NUMERIC_MESSAGE, ⟨["old"], 7, 9, 3, [("x", ⟨"read", Json.null⟩)], [("x", 1)]⟩) :=
  ⟨(c8_invalid_input_rejected [] _ [] []).1 rfl,
    (c8_invalid_input_rejected [] _ [] ["bogus", "1"]).2.1 (by decide) (by decide),
    (c8_invalid_input_rejected [] _ []
      ["completion", "zzz"]).2.2 (by decide) (by decide)⟩

/-! ## C10 — out-of-range numeric IDs are silently skipped -/

/-- Is an `Int` a valid index into a list of the given length? -/
def inRangeIdx (len : Nat) (i : Int) : Bool := decide (0 ≤ i ∧ i < (len : Int))

/-- C10: numeric-ID resolution drops every negative or out-of-range index
without affecting the rest — resolving a list of numeric IDs equals
resolving only its in-range members — and whenever at least one element
after a valid reason parses as a number, the prune action returns the
success confirmation for whatever in-range IDs remain (no error is
reported for the dropped ones). -/
theorem c10_out_of_range_skipped :
    (∀ (nums : List Int) (toolIdList : List String)
        (toolParameters : List (String × ToolMeta)) (protectedTools : List String),
      getPruneToolIds nums toolIdList toolParameters protectedTools =
        getPruneToolIds (nums.filter (inRangeIdx toolIdList.length))
          toolIdList toolParameters protectedTools) ∧
    (∀ (protectedTools : List String) (st : SessionState)
        (messages : List HistoryMsg) (ids : List String),
      ["completion", "noise", "consolidation"].contains (ids.headD "") = true →
      (ids.drop 1).filterMap parseIntJS ≠ [] →
      (pruneExecute protectedTools st messages ids).1 =
        pruneSuccessMessage
          (getPruneToolIds ((ids.drop 1).filterMap parseIntJS)
            (buildToolIdList messages) st.toolParameters protectedTools)) := by
  constructor
  · intro nums toolIdList toolParameters protectedTools
    induction nums with
    | nil => rfl
    | cons index rest ih =>
        by_cases hin : 0 ≤ index ∧ index < (toolIdList.length : Int)
        · have hb : inRangeIdx toolIdList.length index = true := by
            simp [inRangeIdx, hin]
          simp only [getPruneToolIds, hin, if_true, List.filter_cons, hb, ih]
        · have hb : inRangeIdx toolIdList.length index = false := by
            simp only [inRangeIdx, decide_eq_false_iff_not]
            exact hin
          simp only [getPruneToolIds, hin, if_false, List.filter_cons, hb, ih]
          simp
  · intro protectedTools st messages ids hreason hnums
    have hempty : ids.isEmpty = false := by
      cases ids with
      | nil => simp [List.contains] at hreason
      | cons a as => rfl
    have hne : ((ids.drop 1).filterMap parseIntJS).isEmpty = false := by
      cases h : (ids.drop 1).filterMap parseIntJS with
      | nil => exact absurd h hnums
      | cons a as => rfl
    have h1 : (ids.isEmpty = true) = False := by simp [hempty]
    simp only [pruneExecute, h1, hreason, hne]
    simp

/-- Witness for C10: the out-of-range indices `-1` and `5` are dropped, and a
prune call carrying them still succeeds on the in-range ID `0`. -/
theorem c10_witness :
    getPruneToolIds [0, -1, 5] ["cid"] [] [] =
      getPruneToolIds (List.filter (inRangeIdx (List.length ["cid"])) [0, -1, 5])
        ["cid"] [] [] ∧
    (pruneExecute [] ⟨[], 0, 0, 0, [], []⟩
        [⟨"assistant", [⟨"tool", "cid", "read", "data"⟩]⟩]
        ["completion", "0", "-1", "5"]).1 =
      pruneSuccessMessage
        (getPruneToolIds [0, -1, 5]
          (buildToolIdList [⟨"assistant", [⟨"tool", "cid", "read", "data"⟩]⟩])
          [] []) :=
  ⟨c10_out_of_range_skipped.1 [0, -1, 5] ["cid"] [] [],
    c10_out_of_range_skipped.2 [] ⟨[], 0, 0, 0, [], []⟩
      [⟨"assistant", [⟨"tool", "cid", "read", "data"⟩]⟩]
      ["completion", "0", "-1", "5"] (by decide) (by decide)⟩

/-! ## C3 — case normalization of call identifiers -/

/-- C3 counterexample: the explicit prune action stores the call identifier
`AbC123` verbatim (no lowercasing on insertion), and the gateway — which
lowercases only the outgoing message's identifier — then fails to redact an
outgoing tool result carrying the same identifier as `abc123`: the body is
forwarded with its secret content untouched. -/
theorem c3_counterexample :
    (pruneExecute [] ⟨[], 0, 0, 0, [("AbC123", ⟨"read", Json.null⟩)], []⟩
        [⟨"assistant", [⟨"tool", "AbC123", "read", "file contents"⟩]⟩]
        ["completion", "0"]).2.pruneToolIds = ["AbC123"] ∧
    globalFetchBody
      (some (Json.obj [("messages", Json.arr [Json.obj
        [("role", Json.str "tool"), ("tool_call_id", Json.str "abc123"),
          ("content", Json.str "SECRET")]])]))
      "ORIGINAL-REQUEST" ["AbC123"] = "ORIGINAL-REQUEST" := by
  constructor
  · decide
  · decide

/-- C3 amended: the gateway lowercases only the outgoing tool result's
identifier and consults the pruned set verbatim — a tool message is redacted
exactly when the stored set contains the lowercased outgoing identifier.
Hence an identifier stored in lowercase is matched whatever the casing of
the outgoing identifier, while an identifier stored with an uppercase letter
is never matched. -/
theorem c3_amended (pruned : List String) (fs : List (String × Json)) (t : String)
    (hrole : lookupField fs "role" = some (.str "tool"))
    (hid : lookupField fs "tool_call_id" = some (.str t)) :
    redactOne pruned (.obj fs) =
      .ok (if pruned.contains (jsToLower t) = true then
          (Json.obj (spreadSet fs "content" (.str PRUNED_MARKER)), true)
        else (Json.obj fs, false)) := by
  simp only [redactOne, hrole, hid]
  rw [apply_ite Except.ok]
  simp

/-- Witness for C3's amended theorem: the identifier stored in lowercase
(`abc123`) does match the outgoing identifier `AbC123`. -/
theorem c3_witness :
    redactOne ["abc123"]
      (.obj [("role", Json.str "tool"), ("tool_call_id", Json.str "AbC123"),
        ("content", Json.str "SECRET")]) =
      .ok (Json.obj [("role", Json.str "tool"), ("tool_call_id", Json.str "AbC123"),
        ("content", Json.str PRUNED_MARKER)], true) := by
  have h := c3_amended ["abc123"]
    [("role", Json.str "tool"), ("tool_call_id", Json.str "AbC123"),
      ("content", Json.str "SECRET")] "AbC123" rfl rfl
  simpa using h

/-! ## C9 — redaction is idempotent -/

theorem redactOne_idem (pruned : List String) :
    ∀ m m' b, redactOne pruned m = .ok (m', b) → redactOne pruned m' = .ok (m', b) := by
  intro m m' b h
  match m with
  | .null => simp [redactOne] at h
  | .bool v =>
      simp [redactOne] at h
      obtain ⟨rfl, rfl⟩ := h
      simp [redactOne]
  | .num v =>
      simp [redactOne] at h
      obtain ⟨rfl, rfl⟩ := h
      simp [redactOne]
  | .str v =>
      simp [redactOne] at h
      obtain ⟨rfl, rfl⟩ := h
      simp [redactOne]
  | .arr v =>
      simp [redactOne] at h
      obtain ⟨rfl, rfl⟩ := h
      simp [redactOne]
  | .obj fs =>
      rcases hrole : lookupField fs "role" with _ | rv
      · simp [redactOne, hrole] at h
        obtain ⟨rfl, rfl⟩ := h
        simp [redactOne, hrole]
      · match rv with
        | .null =>
            simp [redactOne, hrole] at h
            obtain ⟨rfl, rfl⟩ := h
            simp [redactOne, hrole]
        | .bool v =>
            simp [redactOne, hrole] at h
            obtain ⟨rfl, rfl⟩ := h
            simp [redactOne, hrole]
        | .num v =>
            simp [redactOne, hrole] at h
            obtain ⟨rfl, rfl⟩ := h
            simp [redactOne, hrole]
        | .arr v =>
            simp [redactOne, hrole] at h
            obtain ⟨rfl, rfl⟩ := h
            simp [redactOne, hrole]
        | .obj v =>
            simp [redactOne, hrole] at h
            obtain ⟨rfl, rfl⟩ := h
            simp [redactOne, hrole]
        | .str r =>
            by_cases hr : r = "tool"
            · subst hr
              rcases hid : lookupField fs "tool_call_id" with _ | iv
              · simp [redactOne, hrole, hid] at h
                obtain ⟨rfl, rfl⟩ := h
                simp [redactOne, hrole, hid]
              · match iv with
                | .null =>
                    simp [redactOne, hrole, hid] at h
                    obtain ⟨rfl, rfl⟩ := h
                    simp [redactOne, hrole, hid]
                | .bool v => simp [redactOne, hrole, hid] at h
                | .num v => simp [redactOne, hrole, hid] at h
                | .arr v => simp [redactOne, hrole, hid] at h
                | .obj v => simp [redactOne, hrole, hid] at h
                | .str s =>
                    by_cases hc : jsToLower s ∈ pruned
                    · simp [redactOne, hrole, hid, hc] at h
                      obtain ⟨rfl, rfl⟩ := h
                      have hrole' : lookupField
                          (spreadSet fs "content" (.str PRUNED_MARKER)) "role" =
                          some (.str "tool") := by
                        rw [lookupField_spreadSet_other _ _ _ _ (by decide)]
                        exact hrole
                      have hid' : lookupField
                          (spreadSet fs "content" (.str PRUNED_MARKER)) "tool_call_id" =
                          some (.str s) := by
                        rw [lookupField_spreadSet_other _ _ _ _ (by decide)]
                        exact hid
                      simp [redactOne, hrole', hid', hc, spreadSet_idem]
                    · simp [redactOne, hrole, hid, hc] at h
                      obtain ⟨rfl, rfl⟩ := h
                      simp [redactOne, hrole, hid, hc]
            · simp [redactOne, hrole, hr] at h
              obtain ⟨rfl, rfl⟩ := h
              simp [redactOne, hrole, hr]

theorem redactMessages_idem (pruned : List String) :
    ∀ msgs msgs' c, redactMessages pruned msgs = .ok (msgs', c) →
      redactMessages pruned msgs' = .ok (msgs', c) := by
  intro msgs
  induction msgs with
  | nil =>
      intro msgs' c h
      simp [redactMessages] at h
      obtain ⟨rfl, rfl⟩ := h
      simp [redactMessages]
  | cons m rest ih =>
      intro msgs' c h
      rcases h1 : redactOne pruned m with e | ⟨m', b⟩ <;>
        rw [redactMessages, h1] at h
      · cases h
      · rcases h2 : redactMessages pruned rest with e | ⟨rest', c'⟩ <;>
          rw [h2] at h
        · cases h
        · simp only [Except.ok.injEq, Prod.mk.injEq] at h
          obtain ⟨rfl, rfl⟩ := h
          rw [redactMessages, redactOne_idem pruned m m' b h1, ih rest' c' h2]

theorem anthropicReplaceBlock_idem (tid msg : String) :
    ∀ b b' r, anthropicReplaceBlock tid msg b = .ok (b', r) →
      anthropicReplaceBlock tid msg b' = .ok (b', r) := by
  intro b b' r h
  match b with
  | .null => simp [anthropicReplaceBlock] at h
  | .bool v =>
      simp [anthropicReplaceBlock] at h
      obtain ⟨rfl, rfl⟩ := h
      simp [anthropicReplaceBlock]
  | .num v =>
      simp [anthropicReplaceBlock] at h
      obtain ⟨rfl, rfl⟩ := h
      simp [anthropicReplaceBlock]
  | .str v =>
      simp [anthropicReplaceBlock] at h
      obtain ⟨rfl, rfl⟩ := h
      simp [anthropicReplaceBlock]
  | .arr v =>
      simp [anthropicReplaceBlock] at h
      obtain ⟨rfl, rfl⟩ := h
      simp [anthropicReplaceBlock]
  | .obj fs =>
      rcases hty : lookupField fs "type" with _ | tv
      · simp [anthropicReplaceBlock, hty] at h
        obtain ⟨rfl, rfl⟩ := h
        simp [anthropicReplaceBlock, hty]
      · match tv with
        | .null =>
            simp [anthropicReplaceBlock, hty] at h
            obtain ⟨rfl, rfl⟩ := h
            simp [anthropicReplaceBlock, hty]
        | .bool v =>
            simp [anthropicReplaceBlock, hty] at h
            obtain ⟨rfl, rfl⟩ := h
            simp [anthropicReplaceBlock, hty]
        | .num v =>
            simp [anthropicReplaceBlock, hty] at h
            obtain ⟨rfl, rfl⟩ := h
            simp [anthropicReplaceBlock, hty]
        | .arr v =>
            simp [anthropicReplaceBlock, hty] at h
            obtain ⟨rfl, rfl⟩ := h
            simp [anthropicReplaceBlock, hty]
        | .obj v =>
            simp [anthropicReplaceBlock, hty] at h
            obtain ⟨rfl, rfl⟩ := h
            simp [anthropicReplaceBlock, hty]
        | .str t =>
            by_cases ht : t = "tool_result"
            · subst ht
              rcases hid : lookupField fs "tool_use_id" with _ | iv
              · simp [anthropicReplaceBlock, hty, hid] at h
                obtain ⟨rfl, rfl⟩ := h
                simp [anthropicReplaceBlock, hty, hid]
              · match iv with
                | .null =>
                    simp [anthropicReplaceBlock, hty, hid] at h
                    obtain ⟨rfl, rfl⟩ := h
                    simp [anthropicReplaceBlock, hty, hid]
                | .bool v => simp [anthropicReplaceBlock, hty, hid] at h
                | .num v => simp [anthropicReplaceBlock, hty, hid] at h
                | .arr v => simp [anthropicReplaceBlock, hty, hid] at h
                | .obj v => simp [anthropicReplaceBlock, hty, hid] at h
                | .str s =>
                    by_cases hs : jsToLower s = tid
                    · simp [anthropicReplaceBlock, hty, hid, hs] at h
                      obtain ⟨rfl, rfl⟩ := h
                      have hty' : lookupField
                          (spreadSet fs "content" (.str msg)) "type" =
                          some (.str "tool_result") := by
                        rw [lookupField_spreadSet_other _ _ _ _ (by decide)]
                        exact hty
                      have hid' : lookupField
                          (spreadSet fs "content" (.str msg)) "tool_use_id" =
                          some (.str s) := by
                        rw [lookupField_spreadSet_other _ _ _ _ (by decide)]
                        exact hid
                      simp [anthropicReplaceBlock, hty', hid', hs, spreadSet_idem]
                    · simp [anthropicReplaceBlock, hty, hid, hs] at h
                      obtain ⟨rfl, rfl⟩ := h
                      simp [anthropicReplaceBlock, hty, hid, hs]
            · simp [anthropicReplaceBlock, hty, ht] at h
              obtain ⟨rfl, rfl⟩ := h
              simp [anthropicReplaceBlock, hty, ht]

theorem anthropicReplaceBlocks_idem (tid msg : String) :
    ∀ bs bs' r, anthropicReplaceBlocks tid msg bs = .ok (bs', r) →
      anthropicReplaceBlocks tid msg bs' = .ok (bs', r) := by
  intro bs
  induction bs with
  | nil =>
      intro bs' r h
      simp [anthropicReplaceBlocks] at h
      obtain ⟨rfl, rfl⟩ := h
      simp [anthropicReplaceBlocks]
  | cons b rest ih =>
      intro bs' r h
      rcases h1 : anthropicReplaceBlock tid msg b with e | ⟨b', bb⟩ <;>
        rw [anthropicReplaceBlocks, h1] at h
      · cases h
      · rcases h2 : anthropicReplaceBlocks tid msg rest with e | ⟨rest', cb⟩ <;>
          rw [h2] at h
        · cases h
        · simp only [Except.ok.injEq, Prod.mk.injEq] at h
          obtain ⟨rfl, rfl⟩ := h
          rw [anthropicReplaceBlocks, anthropicReplaceBlock_idem tid msg b b' bb h1,
            ih rest' cb h2]

theorem anthropicReplaceMsg_idem (tid msg : String) :
    ∀ m m' r, anthropicReplaceMsg tid msg m = .ok (m', r) →
      anthropicReplaceMsg tid msg m' = .ok (m', r) := by
  intro m m' r h
  match m with
  | .null => simp [anthropicReplaceMsg] at h
  | .bool v =>
      simp [anthropicReplaceMsg] at h
      obtain ⟨rfl, rfl⟩ := h
      simp [anthropicReplaceMsg]
  | .num v =>
      simp [anthropicReplaceMsg] at h
      obtain ⟨rfl, rfl⟩ := h
      simp [anthropicReplaceMsg]
  | .str v =>
      simp [anthropicReplaceMsg] at h
      obtain ⟨rfl, rfl⟩ := h
      simp [anthropicReplaceMsg]
  | .arr v =>
      simp [anthropicReplaceMsg] at h
      obtain ⟨rfl, rfl⟩ := h
      simp [anthropicReplaceMsg]
  | .obj fs =>
      rcases hrole : lookupField fs "role" with _ | rv
      · simp [anthropicReplaceMsg, hrole] at h
        obtain ⟨rfl, rfl⟩ := h
        simp [anthropicReplaceMsg, hrole]
      · match rv with
        | .null =>
            simp [anthropicReplaceMsg, hrole] at h
            obtain ⟨rfl, rfl⟩ := h
            simp [anthropicReplaceMsg, hrole]
        | .bool v =>
            simp [anthropicReplaceMsg, hrole] at h
            obtain ⟨rfl, rfl⟩ := h
            simp [anthropicReplaceMsg, hrole]
        | .num v =>
            simp [anthropicReplaceMsg, hrole] at h
            obtain ⟨rfl, rfl⟩ := h
            simp [anthropicReplaceMsg, hrole]
        | .arr v =>
            simp [anthropicReplaceMsg, hrole] at h
            obtain ⟨rfl, rfl⟩ := h
            simp [anthropicReplaceMsg, hrole]
        | .obj v =>
            simp [anthropicReplaceMsg, hrole] at h
            obtain ⟨rfl, rfl⟩ := h
            simp [anthropicReplaceMsg, hrole]
        | .str rr =>
            by_cases hr : rr = "user"
            · subst hr
              rcases hct : lookupField fs "content" with _ | cv
              · simp [anthropicReplaceMsg, hrole, hct] at h
                obtain ⟨rfl, rfl⟩ := h
                simp [anthropicReplaceMsg, hrole, hct]
              · match cv with
                | .null =>
                    simp [anthropicReplaceMsg, hrole, hct] at h
                    obtain ⟨rfl, rfl⟩ := h
                    simp [anthropicReplaceMsg, hrole, hct]
                | .bool v =>
                    simp [anthropicReplaceMsg, hrole, hct] at h
                    obtain ⟨rfl, rfl⟩ := h
                    simp [anthropicReplaceMsg, hrole, hct]
                | .num v =>
                    simp [anthropicReplaceMsg, hrole, hct] at h
                    obtain ⟨rfl, rfl⟩ := h
                    simp [anthropicReplaceMsg, hrole, hct]
                | .str v =>
                    simp [anthropicReplaceMsg, hrole, hct] at h
                    obtain ⟨rfl, rfl⟩ := h
                    simp [anthropicReplaceMsg, hrole, hct]
                | .obj v =>
                    simp [anthropicReplaceMsg, hrole, hct] at h
                    obtain ⟨rfl, rfl⟩ := h
                    simp [anthropicReplaceMsg, hrole, hct]
                | .arr blocks =>
                    rcases hbl : anthropicReplaceBlocks tid msg blocks with e | ⟨blocks', md⟩
                    · rw [anthropicReplaceMsg] at h
                      rw [hrole] at h
                      simp only [hct, hbl] at h
                      simp at h
                    · rw [anthropicReplaceMsg] at h
                      rw [hrole] at h
                      simp only [hct, hbl] at h
                      match md, h with
                      | true, h =>
                          simp at h
                          obtain ⟨rfl, rfl⟩ := h
                          have hrole' : lookupField
                              (spreadSet fs "content" (.arr blocks')) "role" =
                              some (.str "user") := by
                            rw [lookupField_spreadSet_other _ _ _ _ (by decide)]
                            exact hrole
                          have hct' : lookupField
                              (spreadSet fs "content" (.arr blocks')) "content" =
                              some (.arr blocks') :=
                            lookupField_spreadSet_self fs "content" (.arr blocks')
                          have hbl' : anthropicReplaceBlocks tid msg blocks' =
                              .ok (blocks', true) :=
                            anthropicReplaceBlocks_idem tid msg blocks blocks' true hbl
                          rw [anthropicReplaceMsg]
                          rw [hrole']
                          simp only [hct', hbl']
                          simp [spreadSet_idem]
                      | false, h =>
                          simp at h
                          obtain ⟨rfl, rfl⟩ := h
                          rw [anthropicReplaceMsg]
                          rw [hrole]
                          simp only [hct, hbl]
                          simp
            · simp [anthropicReplaceMsg, hrole, hr] at h
              obtain ⟨rfl, rfl⟩ := h
              simp [anthropicReplaceMsg, hrole, hr]

theorem anthropicReplaceMsgs_idem (tid msg : String) :
    ∀ ms ms' r, anthropicReplaceMsgs tid msg ms = .ok (ms', r) →
      anthropicReplaceMsgs tid msg ms' = .ok (ms', r) := by
  intro ms
  induction ms with
  | nil =>
      intro ms' r h
      simp [anthropicReplaceMsgs] at h
      obtain ⟨rfl, rfl⟩ := h
      simp [anthropicReplaceMsgs]
  | cons m rest ih =>
      intro ms' r h
      rcases h1 : anthropicReplaceMsg tid msg m with e | ⟨m', b⟩ <;>
        rw [anthropicReplaceMsgs, h1] at h
      · cases h
      · rcases h2 : anthropicReplaceMsgs tid msg rest with e | ⟨rest', bs⟩ <;>
          rw [h2] at h
        · cases h
        · simp only [Except.ok.injEq, Prod.mk.injEq] at h
          obtain ⟨rfl, rfl⟩ := h
          rw [anthropicReplaceMsgs, anthropicReplaceMsg_idem tid msg m m' b h1,
            ih rest' bs h2]

/-- C9: redaction is idempotent.  First conjunct: applying the gateway's
tool-result replacement pass (`index.ts` lines 628-638) to its own output
yields the same messages and the same replacement count.  Second conjunct:
the same for `anthropicFormat.replaceToolOutput`. -/
theorem c9_redaction_idempotent :
    (∀ (pruned : List String) (msgs msgs' : List Json) (c : Nat),
      redactMessages pruned msgs = .ok (msgs', c) →
      redactMessages pruned msgs' = .ok (msgs', c)) ∧
    (∀ (data data' : List Json) (toolId msg : String) (r : Bool),
      anthropicReplaceToolOutput data toolId msg = .ok (data', r) →
      anthropicReplaceToolOutput data' toolId msg = .ok (data', r)) :=
  ⟨fun pruned msgs msgs' c h => redactMessages_idem pruned msgs msgs' c h,
    fun data data' toolId msg r h =>
      anthropicReplaceMsgs_idem (jsToLower toolId) msg data data' r h⟩

/-- Witness for C9: redacting an already-redacted tool message (gateway) and
an already-redacted `tool_result` block (Anthropic descriptor) changes
nothing and reports the same counts. -/
theorem c9_witness :
    redactMessages ["abc"]
      [Json.obj [("role", Json.str "tool"), ("tool_call_id", Json.str "abc"),
        ("content", Json.str PRUNED_MARKER)]] =
      .ok ([Json.obj [("role", Json.str "tool"), ("tool_call_id", Json.str "abc"),
        ("content", Json.str PRUNED_MARKER)]], 1) ∧
    anthropicReplaceToolOutput
      [Json.obj [("role", Json.str "user"),
        ("content", Json.arr [Json.obj [("type", Json.str "tool_result"),
          ("tool_use_id", Json.str "abc"), ("content", Json.str "[pruned]")]])]]
      "abc" "[pruned]" =
      .ok ([Json.obj [("role", Json.str "user"),
        ("content", Json.arr [Json.obj [("type", Json.str "tool_result"),
          ("tool_use_id", Json.str "abc"), ("content", Json.str "[pruned]")]])]],
        true) :=
  ⟨c9_redaction_idempotent.1 ["abc"]
      [Json.obj [("role", Json.str "tool"), ("tool_call_id", Json.str "abc"),
        ("content", Json.str "SECRET")]]
      [Json.obj [("role", Json.str "tool"), ("tool_call_id", Json.str "abc"),
        ("content", Json.str PRUNED_MARKER)]] 1 (by rfl),
    c9_redaction_idempotent.2
      [Json.obj [("role", Json.str "user"),
        ("content", Json.arr [Json.obj [("type", Json.str "tool_result"),
          ("tool_use_id", Json.str "abc"), ("content", Json.str "original output")]])]]
      [Json.obj [("role", Json.str "user"),
        ("content", Json.arr [Json.obj [("type", Json.str "tool_result"),
          ("tool_use_id", Json.str "abc"), ("content", Json.str "[pruned]")]])]]
      "abc" "[pruned]" true (by rfl)⟩

/-! ## C6 — protected tools are never pruned -/

theorem deduplicateMarks_protected (prot : List String) (history : List ToolCall)
    (i : Nat) (c : ToolCall) (hc : history[i]? = some c)
    (hp : prot.contains c.tool = true) : i ∉ deduplicateMarks prot history := by
  intro hmem
  rw [deduplicateMarks, List.mem_filter] at hmem
  have h2 := hmem.2
  rw [hc] at h2
  have hmem' : c.tool ∈ prot := by simpa using hp
  simp [hmem'] at h2

theorem supersedeMarks_protected (prot : List String) (history : List ToolCall)
    (i : Nat) (c : ToolCall) (hc : history[i]? = some c)
    (hp : prot.contains c.tool = true) : i ∉ supersedeMarks prot history := by
  intro hmem
  rw [supersedeMarks, List.mem_filter] at hmem
  have h2 := hmem.2
  rw [hc] at h2
  have hmem' : c.tool ∈ prot := by simpa using hp
  simp [hmem'] at h2

theorem buildPrunableLines_filter (meta : List (String × ToolMeta))
    (prot : List String) :
    ∀ (unpruned : List String) (ims : IdMapState),
      buildPrunableLines ims unpruned meta prot =
        buildPrunableLines ims
          (unpruned.filter fun id =>
            match lookupMeta meta id with
            | some m => !prot.contains m.tool
            | none => false) meta prot := by
  intro unpruned
  induction unpruned with
  | nil => intro ims; rfl
  | cons id rest ih =>
      intro ims
      rcases hm : lookupMeta meta id with _ | m
      · simp only [buildPrunableLines, hm, List.filter_cons]
        rw [ih ims]
        simp
      · by_cases hp : prot.contains m.tool = true
        · simp only [buildPrunableLines, hm, hp, List.filter_cons]
          rw [ih ims]
          simp
        · have hp' : prot.contains m.tool = false := by
            cases h : prot.contains m.tool
            · rfl
            · exact absurd h hp
          simp only [buildPrunableLines, hm, hp', List.filter_cons]
          simp only [Bool.not_false, Bool.false_eq_true, if_false, if_true]
          rw [ih ((getOrCreateNumericId ims id).2)]

theorem getPruneToolIds_protected (tp : List (String × ToolMeta))
    (prot : List String) (id : String) (m : ToolMeta)
    (hm : lookupMeta tp id = some m) (hp : prot.contains m.tool = true) :
    ∀ (nums : List Int) (toolIdList : List String),
      id ∉ getPruneToolIds nums toolIdList tp prot := by
  intro nums
  induction nums with
  | nil => intro toolIdList h; simp [getPruneToolIds] at h
  | cons index rest ih =>
      intro toolIdList hmem
      rw [getPruneToolIds] at hmem
      by_cases hin : 0 ≤ index ∧ index < (toolIdList.length : Int)
      · rw [if_pos hin] at hmem
        rcases hidx : toolIdList[index.toNat]? with _ | id'
        · simp only [hidx] at hmem
          exact ih toolIdList hmem
        · simp only [hidx] at hmem
          rcases hm' : lookupMeta tp id' with _ | m'
          · simp only [hm'] at hmem
            rcases List.mem_cons.mp hmem with heq | htail
            · subst heq
              rw [hm] at hm'
              simp at hm'
            · exact ih toolIdList htail
          · simp only [hm'] at hmem
            by_cases hp' : prot.contains m'.tool = true
            · simp only [hp', if_true] at hmem
              exact ih toolIdList hmem
            · have hp'' : prot.contains m'.tool = false := by
                cases h : prot.contains m'.tool
                · rfl
                · exact absurd h hp'
              simp only [hp'', Bool.false_eq_true, if_false] at hmem
              rcases List.mem_cons.mp hmem with heq | htail
              · subst heq
                rw [hm] at hm'
                injection hm' with hmm
                rw [← hmm] at hp''
                rw [hp] at hp''
                simp at hp''
              · exact ih toolIdList htail
      · rw [if_neg hin] at hmem
        exact ih toolIdList hmem

/-- C6 counterexample: the universal claim fails at a cache miss.  The
history holds a single `task` call (a protected tool, its tool name recorded
in the part itself), but the tool-parameter cache has no entry for its call
identifier — the situation the error taxonomy mandates for malformed
argument JSON, which is skipped and never cached.  `getPruneToolIds`
(`utils.ts` lines 116-120) then pushes the identifier unconditionally, so
the explicit prune action resolves numeric ID `0` to the protected call and
adds it to the pruned-ID set. -/
theorem c6_counterexample :
    (pruneExecute ["task"] ⟨[], 0, 0, 0, [], []⟩
        [⟨"assistant", [⟨"tool", "tsk1", "task", "output"⟩]⟩]
        ["completion", "0"]).2.pruneToolIds = ["tsk1"] := by
  decide

/-- C6 amended: a call whose tool name is protected is never added to a
candidate set by any component that can see its tool name — the
deduplication strategy and the supersede-writes strategy never mark it, and
the prunable-list builder behaves as if protected (and metadata-less)
identifiers were absent — and the explicit prune action never resolves a
numeric ID to a call identifier whose cached metadata names a protected
tool; on a cache miss the identifier is resolved regardless of the
underlying call's tool. -/
theorem c6_protected_tools_excluded :
    (∀ (prot : List String) (history : List ToolCall) (i : Nat) (c : ToolCall),
      history[i]? = some c → prot.contains c.tool = true →
      i ∉ deduplicateMarks prot history) ∧
    (∀ (prot : List String) (history : List ToolCall) (i : Nat) (c : ToolCall),
      history[i]? = some c → prot.contains c.tool = true →
      i ∉ supersedeMarks prot history) ∧
    (∀ (ims : IdMapState) (unpruned : List String)
        (meta : List (String × ToolMeta)) (prot : List String),
      buildPrunableToolsList ims unpruned meta prot =
        buildPrunableToolsList ims
          (unpruned.filter fun id =>
            match lookupMeta meta id with
            | some m => !prot.contains m.tool
            | none => false) meta prot) ∧
    (∀ (nums : List Int) (toolIdList : List String)
        (tp : List (String × ToolMeta)) (prot : List String)
        (id : String) (m : ToolMeta),
      lookupMeta tp id = some m → prot.contains m.tool = true →
      id ∉ getPruneToolIds nums toolIdList tp prot) := by
  refine ⟨deduplicateMarks_protected, supersedeMarks_protected, ?_, ?_⟩
  · intro ims unpruned meta prot
    simp only [buildPrunableToolsList]
    rw [buildPrunableLines_filter meta prot unpruned ims]
  · intro nums toolIdList tp prot id m hm hp
    exact getPruneToolIds_protected tp prot id m hm hp nums toolIdList

/-- Witness for C6: with `task` protected, a duplicated `task` call is marked
by neither strategy, the builder drops it from the listing, and the numeric
ID that points at it resolves to nothing. -/
theorem c6_witness :
    0 ∉ deduplicateMarks ["task"]
      [⟨"c1", "task", Json.null⟩, ⟨"c2", "task", Json.null⟩] ∧
    0 ∉ supersedeMarks ["task"]
      [⟨"c1", "task", Json.obj [("filePath", Json.str "a.txt")]⟩,
        ⟨"c2", "read", Json.obj [("filePath", Json.str "a.txt")]⟩] ∧
    buildPrunableToolsList ⟨1, []⟩ ["c1"] [("c1", ⟨"task", Json.null⟩)] ["task"] =
      buildPrunableToolsList ⟨1, []⟩
        (List.filter
          (fun id =>
            match lookupMeta [("c1", ⟨"task", Json.null⟩)] id with
            | some m => !(["task"].contains m.tool)
            | none => false) ["c1"])
        [("c1", ⟨"task", Json.null⟩)] ["task"] ∧
    "c1" ∉ getPruneToolIds [0] ["c1"] [("c1", ⟨"task", Json.null⟩)] ["task"] :=
  ⟨c6_protected_tools_excluded.1 ["task"] _ 0 ⟨"c1", "task", Json.null⟩ rfl rfl,
    c6_protected_tools_excluded.2.1 ["task"] _ 0
      ⟨"c1", "task", Json.obj [("filePath", Json.str "a.txt")]⟩ rfl rfl,
    c6_protected_tools_excluded.2.2.1 ⟨1, []⟩ ["c1"]
      [("c1", ⟨"task", Json.null⟩)] ["task"],
    c6_protected_tools_excluded.2.2.2 [0] ["c1"]
      [("c1", ⟨"task", Json.null⟩)] ["task"] "c1" ⟨"task", Json.null⟩ rfl rfl⟩

/-! ## C7 — numeric-ID assignment is stable and injective -/

/-- Well-formedness of the numeric-ID store: every assigned alias is below
the counter, and no two identifiers share an alias. -/
def IdMapGood (s : IdMapState) : Prop :=
  (∀ k n, lookupNumericId s.numericIdMap k = some n → n < s.nextNumericId) ∧
  (∀ k1 k2 n, lookupNumericId s.numericIdMap k1 = some n →
    lookupNumericId s.numericIdMap k2 = some n → k1 = k2)

theorem idMapGood_initial : IdMapGood initialIdMapState := by
  constructor
  · intro k n h
    simp [initialIdMapState, lookupNumericId] at h
  · intro k1 k2 n h1 h2
    simp [initialIdMapState, lookupNumericId] at h1

theorem idMapGood_step (s : IdMapState) (hs : IdMapGood s) (id : String) :
    IdMapGood (getOrCreateNumericId s id).2 := by
  rcases hl : lookupNumericId s.numericIdMap id with _ | n
  · simp only [getOrCreateNumericId, hl]
    constructor
    · intro k n h
      simp only [lookupNumericId] at h
      by_cases hk : id = k
      · rw [if_pos hk] at h
        injection h with hh
        dsimp only
        omega
      · rw [if_neg hk] at h
        have := hs.1 k n h
        dsimp only
        omega
    · intro k1 k2 n h1 h2
      simp only [lookupNumericId] at h1 h2
      by_cases hk1 : id = k1 <;> by_cases hk2 : id = k2
      · rw [← hk1, ← hk2]
      · rw [if_pos hk1] at h1
        rw [if_neg hk2] at h2
        injection h1 with hh1
        have := hs.1 k2 n h2
        omega
      · rw [if_neg hk1] at h1
        rw [if_pos hk2] at h2
        injection h2 with hh2
        have := hs.1 k1 n h1
        omega
      · rw [if_neg hk1] at h1
        rw [if_neg hk2] at h2
        exact hs.2 k1 k2 n h1 h2
  · simp only [getOrCreateNumericId, hl]
    exact hs

theorem idMapGood_applyIds (ids : List String) :
    ∀ s : IdMapState, IdMapGood s → IdMapGood (applyIds s ids) := by
  induction ids with
  | nil => intro s hs; exact hs
  | cons id rest ih =>
      intro s hs
      exact ih _ (idMapGood_step s hs id)

theorem lookupNumericId_step_preserved (s : IdMapState) (id a : String) (n : Nat)
    (h : lookupNumericId s.numericIdMap a = some n) :
    lookupNumericId (getOrCreateNumericId s id).2.numericIdMap a = some n := by
  rcases hl : lookupNumericId s.numericIdMap id with _ | m
  · simp only [getOrCreateNumericId, hl]
    simp only [lookupNumericId]
    by_cases hk : id = a
    · rw [hk] at hl
      rw [h] at hl
      cases hl
    · rw [if_neg hk]
      exact h
  · simp only [getOrCreateNumericId, hl]
    exact h

theorem lookupNumericId_applyIds_preserved (ids : List String) :
    ∀ (s : IdMapState) (a : String) (n : Nat),
      lookupNumericId s.numericIdMap a = some n →
      lookupNumericId (applyIds s ids).numericIdMap a = some n := by
  induction ids with
  | nil => intro s a n h; exact h
  | cons id rest ih =>
      intro s a n h
      exact ih _ a n (lookupNumericId_step_preserved s id a n h)

/-- C7: numeric-ID assignment is stable and injective per session.
(1) Requesting an identifier's numeric ID twice returns the same integer.
(2) Once assigned, an identifier's alias survives any further sequence of
assignments unchanged (append-only, never reassigned).
(3) In any state reachable from a fresh session, two distinct identifiers
never share a numeric ID (so an alias is never reused).
(4) The explicit prune action never touches the numeric-ID map, so aliases
survive pruning. -/
theorem c7_numeric_id_stable_injective :
    (∀ (s : IdMapState) (a : String),
      (getOrCreateNumericId (getOrCreateNumericId s a).2 a).1 =
        (getOrCreateNumericId s a).1) ∧
    (∀ (s : IdMapState) (a : String) (n : Nat) (ids : List String),
      lookupNumericId s.numericIdMap a = some n →
      lookupNumericId (applyIds s ids).numericIdMap a = some n) ∧
    (∀ (ids : List String) (a b : String) (na nb : Nat), a ≠ b →
      lookupNumericId (applyIds initialIdMapState ids).numericIdMap a = some na →
      lookupNumericId (applyIds initialIdMapState ids).numericIdMap b = some nb →
      na ≠ nb) ∧
    (∀ (protectedTools : List String) (st : SessionState)
        (messages : List HistoryMsg) (ids : List String),
      (pruneExecute protectedTools st messages ids).2.numericIdMap =
        st.numericIdMap) := by
  refine ⟨?_, ?_, ?_, ?_⟩
  · intro s a
    rcases hl : lookupNumericId s.numericIdMap a with _ | n
    · simp only [getOrCreateNumericId, hl]
      simp [lookupNumericId]
    · simp only [getOrCreateNumericId, hl]
  · intro s a n ids h
    exact lookupNumericId_applyIds_preserved ids s a n h
  · intro ids a b na nb hab ha hb
    intro heq
    have hgood := idMapGood_applyIds ids initialIdMapState idMapGood_initial
    rw [heq] at ha
    exact hab (hgood.2 a b nb ha hb)
  · intro protectedTools st messages ids
    simp only [pruneExecute]
    split
    · rfl
    · split
      · rfl
      · split
        · rfl
        · rfl

/-- Witness for C7 at concrete inputs: asking twice for `x` gives the same
alias; an early alias survives later assignments; `x` and `y` get distinct
aliases; a successful prune leaves the numeric-ID map untouched. -/
theorem c7_witness :
    (getOrCreateNumericId (getOrCreateNumericId ⟨1, []⟩ "x").2 "x").1 =
      (getOrCreateNumericId ⟨1, []⟩ "x").1 ∧
    lookupNumericId (applyIds ⟨2, [("x", 1)]⟩ ["y", "z"]).numericIdMap "x" =
      some 1 ∧
    (1 : Nat) ≠ 2 ∧
    (pruneExecute [] ⟨[], 0, 0, 0, [("cid", ⟨"read", Json.null⟩)], [("cid", 1)]⟩
        [⟨"assistant", [⟨"tool", "cid", "read", "data"⟩]⟩]
        ["completion", "0"]).2.numericIdMap = [("cid", 1)] :=
  ⟨c7_numeric_id_stable_injective.1 ⟨1, []⟩ "x",
    c7_numeric_id_stable_injective.2.1 ⟨2, [("x", 1)]⟩ "x" 1 ["y", "z"] (by decide),
    c7_numeric_id_stable_injective.2.2.1 ["x", "y"] "x" "y" 1 2 (by decide)
      (by decide) (by decide),
    c7_numeric_id_stable_injective.2.2.2 []
      ⟨[], 0, 0, 0, [("cid", ⟨"read", Json.null⟩)], [("cid", 1)]⟩
      [⟨"assistant", [⟨"tool", "cid", "read", "data"⟩]⟩] ["completion", "0"]⟩

/-! ## C4 — deduplication: order lemmas for the key sort -/

theorem natLexLt_irrefl : ∀ x : List Nat, natLexLt x x = false
  | [] => rfl
  | a :: as => by simp [natLexLt, natLexLt_irrefl as]

theorem natLexLt_trans :
    ∀ x y z : List Nat, natLexLt x y = true → natLexLt y z = true →
      natLexLt x z = true
  | [], [], _ => by intro h; simp [natLexLt] at h
  | a :: as, [], _ => by intro h; simp [natLexLt] at h
  | [], b :: bs, [] => by intro _ h; simp [natLexLt] at h
  | a :: as, b :: bs, [] => by intro _ h; simp [natLexLt] at h
  | [], b :: bs, c :: cs => by intro _ _; simp [natLexLt]
  | a :: as, b :: bs, c :: cs => by
      intro hxy hyz
      simp only [natLexLt, Bool.or_eq_true, Bool.and_eq_true, decide_eq_true_eq,
        beq_iff_eq] at hxy hyz ⊢
      rcases hxy with h1 | ⟨he1, hr1⟩ <;> rcases hyz with h2 | ⟨he2, hr2⟩
      · exact Or.inl (Nat.lt_trans h1 h2)
      · exact Or.inl (he2 ▸ h1)
      · exact Or.inl (he1 ▸ h2)
      · exact Or.inr ⟨he1.trans he2, natLexLt_trans as bs cs hr1 hr2⟩

theorem natLexLt_conn :
    ∀ x y : List Nat, natLexLt x y = false → natLexLt y x = false → x = y
  | [], [] => fun _ _ => rfl
  | [], b :: bs => fun h _ => by simp [natLexLt] at h
  | a :: as, [] => fun _ h => by simp [natLexLt] at h
  | a :: as, b :: bs => fun h1 h2 => by
      simp only [natLexLt, Bool.or_eq_false_iff, Bool.and_eq_false_iff,
        decide_eq_false_iff_not, beq_eq_false_iff_ne, ne_eq] at h1 h2
      obtain ⟨hab, hr1⟩ := h1
      obtain ⟨hba, hr2⟩ := h2
      have hab' : a = b := by omega
      subst hab'
      have hr1' : natLexLt as bs = false := by
        rcases hr1 with h | h
        · exact absurd rfl h
        · exact h
      have hr2' : natLexLt bs as = false := by
        rcases hr2 with h | h
        · exact absurd rfl h
        · exact h
      rw [natLexLt_conn as bs hr1' hr2']

theorem natLexLt_asymm (x y : List Nat) (h1 : natLexLt x y = true)
    (h2 : natLexLt y x = true) : False := by
  have := natLexLt_trans x y x h1 h2
  rw [natLexLt_irrefl x] at this
  cases this

theorem keyCode_inj (s t : String) (h : keyCode s = keyCode t) : s = t := by
  have hinj : Function.Injective Char.toNat := by
    intro a b hh
    exact Char.eq_of_val_eq (UInt32.ext hh)
  have hdata : s.data = t.data := by
    have := List.map_injective_iff.mpr hinj
    exact this h
  cases s with
  | mk d1 =>
      cases t with
      | mk d2 =>
          have hd : d1 = d2 := hdata
          rw [hd]

/-- Non-strict key order on fields: `p` may come before `q`. -/
def fieldRle (p q : String × Json) : Prop := fieldLt q p = false

/-- Strict key order on fields. -/
def fieldRlt (p q : String × Json) : Prop := fieldLt p q = true

theorem insertField_perm (p : String × Json) :
    ∀ l : List (String × Json), (insertField p l).Perm (p :: l) := by
  intro l
  induction l with
  | nil => exact List.Perm.refl _
  | cons q qs ih =>
      by_cases hlt : fieldLt q p = true
      · simp only [insertField, hlt, if_true]
        exact (ih.cons q).trans (List.Perm.swap p q qs)
      · simp only [insertField, hlt, if_false]
        exact List.Perm.refl _

theorem insertField_pairwise (p : String × Json) :
    ∀ l : List (String × Json), l.Pairwise fieldRle →
      (insertField p l).Pairwise fieldRle := by
  intro l
  induction l with
  | nil => intro _; simp [insertField]
  | cons q qs ih =>
      intro hpw
      rw [List.pairwise_cons] at hpw
      obtain ⟨hq, hqs⟩ := hpw
      by_cases hlt : fieldLt q p = true
      · simp only [insertField, hlt, if_true]
        rw [List.pairwise_cons]
        refine ⟨?_, ih hqs⟩
        intro x hx
        rcases List.mem_cons.mp (((insertField_perm p qs).mem_iff).mp hx) with hx' | hx'
        · subst hx'
          show fieldLt x q = false
          cases hc : fieldLt x q
          · rfl
          · exact ((natLexLt_asymm _ _ hc hlt).elim)
        · exact hq x hx'
      · have hlt' : fieldLt q p = false := by
          cases h : fieldLt q p
          · rfl
          · exact absurd h hlt
        simp only [insertField, hlt', Bool.false_eq_true, if_false]
        rw [List.pairwise_cons]
        refine ⟨?_, ?_⟩
        · intro x hx
          rcases List.mem_cons.mp hx with hx' | hx'
          · subst hx'
            exact hlt'
          · show fieldLt x p = false
            cases hxp : fieldLt x p
            · rfl
            · exfalso
              have hqx : fieldLt x q = false := hq x hx'
              unfold fieldLt at hqx hxp hlt'
              cases hqx2 : fieldLt q x
              · unfold fieldLt at hqx2
                have hkey := natLexLt_conn (keyCode x.1) (keyCode q.1) hqx hqx2
                rw [hkey] at hxp
                rw [hxp] at hlt'
                cases hlt'
              · unfold fieldLt at hqx2
                have htr := natLexLt_trans (keyCode q.1) (keyCode x.1) (keyCode p.1)
                  hqx2 hxp
                rw [htr] at hlt'
                cases hlt'
        · rw [List.pairwise_cons]
          exact ⟨hq, hqs⟩

theorem sortFields_perm : ∀ l : List (String × Json), (sortFields l).Perm l := by
  intro l
  induction l with
  | nil => exact List.Perm.refl _
  | cons p ps ih =>
      exact (insertField_perm p (sortFields ps)).trans (ih.cons p)

theorem sortFields_pairwise : ∀ l : List (String × Json),
    (sortFields l).Pairwise fieldRle := by
  intro l
  induction l with
  | nil => simp [sortFields]
  | cons p ps ih => exact insertField_pairwise p (sortFields ps) ih

theorem pairwise_fieldRlt_of_rle_nodup (l : List (String × Json))
    (h1 : l.Pairwise fieldRle) (h2 : (l.map Prod.fst).Nodup) :
    l.Pairwise fieldRlt := by
  have hne : l.Pairwise fun p q => p.1 ≠ q.1 := by
    rw [List.Nodup, List.pairwise_map] at h2
    exact h2
  refine (h1.and hne).imp ?_
  intro p q hpq
  obtain ⟨hle, hkne⟩ := hpq
  show fieldLt p q = true
  cases hc : fieldLt p q
  · exfalso
    unfold fieldRle fieldLt at hle
    unfold fieldLt at hc
    have hkey := natLexLt_conn (keyCode p.1) (keyCode q.1) hc hle
    exact hkne (keyCode_inj p.1 q.1 hkey)
  · rfl

theorem sorted_fieldRlt_eq (l₁ l₂ : List (String × Json)) (hp : l₁.Perm l₂)
    (h1 : l₁.Pairwise fieldRlt) (h2 : l₂.Pairwise fieldRlt) : l₁ = l₂ := by
  haveI : IsAntisymm (String × Json) fieldRlt :=
    ⟨fun p q hpq hqp => absurd (natLexLt_asymm _ _ hpq hqp) not_false⟩
  exact List.eq_of_perm_of_sorted hp h1 h2

theorem sortFields_eq_of_perm (l₁ l₂ : List (String × Json)) (hp : l₁.Perm l₂)
    (hnd : (l₁.map Prod.fst).Nodup) : sortFields l₁ = sortFields l₂ := by
  have hnd₂ : (l₂.map Prod.fst).Nodup := ((hp.map Prod.fst).nodup_iff).mp hnd
  have hnds₁ : ((sortFields l₁).map Prod.fst).Nodup :=
    (((sortFields_perm l₁).map Prod.fst).nodup_iff).mpr hnd
  have hnds₂ : ((sortFields l₂).map Prod.fst).Nodup :=
    (((sortFields_perm l₂).map Prod.fst).nodup_iff).mpr hnd₂
  have hperm : (sortFields l₁).Perm (sortFields l₂) :=
    ((sortFields_perm l₁).trans hp).trans (sortFields_perm l₂).symm
  exact sorted_fieldRlt_eq _ _ hperm
    (pairwise_fieldRlt_of_rle_nodup _ (sortFields_pairwise l₁) hnds₁)
    (pairwise_fieldRlt_of_rle_nodup _ (sortFields_pairwise l₂) hnds₂)

theorem normFields_eq_map : ∀ l : List (String × Json),
    normFields l = l.map fun p => (p.1, normJson p.2) := by
  intro l
  induction l with
  | nil => rfl
  | cons p ps ih =>
      obtain ⟨k, v⟩ := p
      simp only [normFields, ih, List.map_cons]

theorem normFields_keys (l : List (String × Json)) :
    (normFields l).map Prod.fst = l.map Prod.fst := by
  rw [normFields_eq_map, List.map_map]
  rfl

/-- Normalization is insensitive to parameter-object key order: permuted
field lists with distinct keys normalize identically. -/
theorem normJson_obj_perm (f₁ f₂ : List (String × Json)) (hp : f₁.Perm f₂)
    (hnd : (f₁.map Prod.fst).Nodup) :
    normJson (.obj f₁) = normJson (.obj f₂) := by
  show Json.obj (sortFields (normFields f₁)) = Json.obj (sortFields (normFields f₂))
  have hperm : (normFields f₁).Perm (normFields f₂) := by
    rw [normFields_eq_map, normFields_eq_map]
    exact hp.map _
  have hnd' : ((normFields f₁).map Prod.fst).Nodup := by
    rw [normFields_keys]
    exact hnd
  rw [sortFields_eq_of_perm _ _ hperm hnd']

theorem deduplicateMarks_mem_iff (prot : List String) (history : List ToolCall)
    (i : Nat) :
    i ∈ deduplicateMarks prot history ↔
      ∃ c, history[i]? = some c ∧ prot.contains c.tool = false ∧
        ∃ j c', i < j ∧ history[j]? = some c' ∧ c'.tool = c.tool ∧
          normJson c'.params = normJson c.params := by
  rw [deduplicateMarks, List.mem_filter, List.mem_range]
  constructor
  · rintro ⟨hi, hpred⟩
    rcases hc : history[i]? with _ | c
    · simp only [hc] at hpred
      exact Bool.noConfusion hpred
    · simp only [hc, Bool.and_eq_true] at hpred
      obtain ⟨hnp, hany⟩ := hpred
      have hnp' : prot.contains c.tool = false := by
        cases h : prot.contains c.tool
        · rfl
        · rw [h] at hnp; simp at hnp
      rw [List.any_eq_true] at hany
      obtain ⟨c', hcmem, hcp⟩ := hany
      rw [Bool.and_eq_true, beq_iff_eq] at hcp
      obtain ⟨htool, heqb⟩ := hcp
      obtain ⟨m, hm⟩ := List.mem_iff_getElem?.mp hcmem
      rw [List.getElem?_drop] at hm
      exact ⟨c, rfl, hnp', i + 1 + m, c', by omega, hm, htool, (jsonEqb_iff _ _).mp heqb⟩
  · rintro ⟨c, hc, hnp, j, c', hij, hjc, htool, hnorm⟩
    have hi : i < history.length := by
      rcases List.getElem?_eq_some.mp hc with ⟨h, _⟩
      exact h
    refine ⟨hi, ?_⟩
    simp only [hc, Bool.and_eq_true]
    constructor
    · rw [hnp]; rfl
    · rw [List.any_eq_true]
      refine ⟨c', ?_, ?_⟩
      · rw [List.mem_iff_getElem?]
        refine ⟨j - (i + 1), ?_⟩
        rw [List.getElem?_drop]
        have harith : i + 1 + (j - (i + 1)) = j := by omega
        rw [harith]
        exact hjc
      · rw [Bool.and_eq_true, beq_iff_eq]
        exact ⟨htool, (jsonEqb_iff _ _).mpr hnorm⟩

/-- C4: the deduplication strategy marks exactly the non-final occurrences.
First conjunct: an index is a candidate iff its entry is not protected and a
chronologically later entry has the same (toolName, normalized-parameters)
key — so within every group of two or more identical calls every member
except the most recent is marked, and the most recent member never is.
Second conjunct: parameter normalization makes parameter objects compare
equal regardless of key order. -/
theorem c4_deduplication_marks_all_but_most_recent :
    (∀ (prot : List String) (history : List ToolCall) (i : Nat),
      i ∈ deduplicateMarks prot history ↔
        ∃ c, history[i]? = some c ∧ prot.contains c.tool = false ∧
          ∃ j c', i < j ∧ history[j]? = some c' ∧ c'.tool = c.tool ∧
            normJson c'.params = normJson c.params) ∧
    (∀ f₁ f₂ : List (String × Json), f₁.Perm f₂ → (f₁.map Prod.fst).Nodup →
      normJson (.obj f₁) = normJson (.obj f₂)) :=
  ⟨deduplicateMarks_mem_iff, normJson_obj_perm⟩

/-- Witness for C4: of two identical `read` calls the earlier one is marked,
the most recent one is not, and two key-permuted parameter objects
normalize identically. -/
theorem c4_witness :
    0 ∈ deduplicateMarks []
      [⟨"c1", "read", Json.null⟩, ⟨"c2", "read", Json.null⟩] ∧
    1 ∉ deduplicateMarks []
      [⟨"c1", "read", Json.null⟩, ⟨"c2", "read", Json.null⟩] ∧
    normJson (.obj [("b", Json.null), ("a", Json.bool true)]) =
      normJson (.obj [("a", Json.bool true), ("b", Json.null)]) := by
  refine ⟨?_, ?_, ?_⟩
  · exact (c4_deduplication_marks_all_but_most_recent.1 [] _ 0).mpr
      ⟨⟨"c1", "read", Json.null⟩, rfl, rfl, 1, ⟨"c2", "read", Json.null⟩,
        by omega, rfl, rfl, rfl⟩
  · intro hmem
    obtain ⟨c, hc, hnp, j, c', hij, hjc, _, _⟩ :=
      (c4_deduplication_marks_all_but_most_recent.1 [] _ 1).mp hmem
    have hlen : ([⟨"c1", "read", Json.null⟩, ⟨"c2", "read", Json.null⟩] :
        List ToolCall).length ≤ j := by
      simp only [List.length_cons, List.length_nil]
      omega
    rw [List.getElem?_eq_none hlen] at hjc
    cases hjc
  · exact c4_deduplication_marks_all_but_most_recent.2
      [("b", Json.null), ("a", Json.bool true)]
      [("a", Json.bool true), ("b", Json.null)]
      (List.Perm.swap ("a", Json.bool true) ("b", Json.null) [])
      (by decide)

/-! ## C5 — supersede-writes requires a later matching read -/

theorem supersedeMarks_mem_iff (prot : List String) (history : List ToolCall)
    (i : Nat) :
    i ∈ supersedeMarks prot history ↔
      ∃ c, history[i]? = some c ∧ prot.contains c.tool = false ∧
        isWriteCall c = true ∧
        ∃ p, callPath c = some p ∧
          ∃ j c', i < j ∧ history[j]? = some c' ∧ isReadCall c' = true ∧
            callPath c' = some p := by
  rw [supersedeMarks, List.mem_filter, List.mem_range]
  constructor
  · rintro ⟨hi, hpred⟩
    rcases hc : history[i]? with _ | c
    · simp only [hc] at hpred
      exact Bool.noConfusion hpred
    · simp only [hc, Bool.and_eq_true] at hpred
      obtain ⟨⟨hnp, hw⟩, hrest⟩ := hpred
      have hnp' : prot.contains c.tool = false := by
        cases h : prot.contains c.tool
        · rfl
        · rw [h] at hnp; simp at hnp
      rcases hp : callPath c with _ | p
      · rw [hp] at hrest
        exact Bool.noConfusion hrest
      · rw [hp] at hrest
        rw [List.any_eq_true] at hrest
        obtain ⟨c', hcmem, hcp⟩ := hrest
        rw [Bool.and_eq_true, beq_iff_eq] at hcp
        obtain ⟨hread, hpath⟩ := hcp
        obtain ⟨m, hm⟩ := List.mem_iff_getElem?.mp hcmem
        rw [List.getElem?_drop] at hm
        exact ⟨c, rfl, hnp', hw, p, hp, i + 1 + m, c', by omega, hm, hread, hpath⟩
  · rintro ⟨c, hc, hnp, hw, p, hp, j, c', hij, hjc, hread, hpath⟩
    have hi : i < history.length := by
      rcases List.getElem?_eq_some.mp hc with ⟨h, _⟩
      exact h
    refine ⟨hi, ?_⟩
    simp only [hc, Bool.and_eq_true]
    refine ⟨⟨?_, hw⟩, ?_⟩
    · rw [hnp]; rfl
    · rw [hp]
      rw [List.any_eq_true]
      refine ⟨c', ?_, ?_⟩
      · rw [List.mem_iff_getElem?]
        refine ⟨j - (i + 1), ?_⟩
        rw [List.getElem?_drop]
        have harith : i + 1 + (j - (i + 1)) = j := by omega
        rw [harith]
        exact hjc
      · rw [Bool.and_eq_true, beq_iff_eq]
        exact ⟨hread, hpath⟩

theorem supersedeMarks_read_removed (prot : List String) (history : List ToolCall)
    (p : String) (i : Nat) (c : ToolCall)
    (hc : (history.filter fun r => !(isReadCall r && callPath r == some p))[i]? =
      some c)
    (hpath : callPath c = some p) :
    i ∉ supersedeMarks prot
      (history.filter fun r => !(isReadCall r && callPath r == some p)) := by
  intro hmem
  rw [supersedeMarks_mem_iff] at hmem
  obtain ⟨c0, hc0, _, _, p0, hp0, j, c', _, hjc, hread, hpath'⟩ := hmem
  rw [hc] at hc0
  injection hc0 with he
  subst he
  rw [hpath] at hp0
  injection hp0 with hpe
  subst hpe
  have hcmem := List.getElem?_mem hjc
  rw [List.mem_filter] at hcmem
  have hpred := hcmem.2
  rw [hread, hpath'] at hpred
  simp at hpred

/-- C5: the supersede-writes strategy marks a write exactly when a
chronologically later read of the same path exists.  First conjunct: the
candidate characterization — a write with no later matching read is never a
candidate.  Second conjunct: removing the matching reads from the history
removes the write from the candidate set. -/
theorem c5_supersede_requires_later_read :
    (∀ (prot : List String) (history : List ToolCall) (i : Nat),
      i ∈ supersedeMarks prot history ↔
        ∃ c, history[i]? = some c ∧ prot.contains c.tool = false ∧
          isWriteCall c = true ∧
          ∃ p, callPath c = some p ∧
            ∃ j c', i < j ∧ history[j]? = some c' ∧ isReadCall c' = true ∧
              callPath c' = some p) ∧
    (∀ (prot : List String) (history : List ToolCall) (p : String) (i : Nat)
        (c : ToolCall),
      (history.filter fun r => !(isReadCall r && callPath r == some p))[i]? =
        some c →
      callPath c = some p →
      i ∉ supersedeMarks prot
        (history.filter fun r => !(isReadCall r && callPath r == some p))) :=
  ⟨supersedeMarks_mem_iff, supersedeMarks_read_removed⟩

/-- Witness for C5: a write to `a.txt` followed by a read of `a.txt` is a
candidate; after removing the read from the history the write is not. -/
theorem c5_witness :
    0 ∈ supersedeMarks []
      [⟨"w1", "write", Json.obj [("filePath", Json.str "a.txt")]⟩,
        ⟨"r1", "read", Json.obj [("filePath", Json.str "a.txt")]⟩] ∧
    0 ∉ supersedeMarks []
      (List.filter (fun r => !(isReadCall r && callPath r == some "a.txt"))
        [⟨"w1", "write", Json.obj [("filePath", Json.str "a.txt")]⟩,
          ⟨"r1", "read", Json.obj [("filePath", Json.str "a.txt")]⟩]) := by
  constructor
  · exact (c5_supersede_requires_later_read.1 [] _ 0).mpr
      ⟨⟨"w1", "write", Json.obj [("filePath", Json.str "a.txt")]⟩, rfl, rfl, rfl,
        "a.txt", rfl, 1,
        ⟨"r1", "read", Json.obj [("filePath", Json.str "a.txt")]⟩,
        by omega, rfl, rfl, rfl⟩
  · exact c5_supersede_requires_later_read.2 []
      [⟨"w1", "write", Json.obj [("filePath", Json.str "a.txt")]⟩,
        ⟨"r1", "read", Json.obj [("filePath", Json.str "a.txt")]⟩]
      "a.txt" 0 ⟨"w1", "write", Json.obj [("filePath", Json.str "a.txt")]⟩
      (by rfl) rfl
